import Mathlib

/-!
Verification of the mesh-bridge subsystem of the spiritworld repository.

This file gives a shallow embedding of the data model and operations of
`src/apps/mesh-bridge/` (models.py, message_queue.py, alerts.py,
meshtastic_bridge.py) and proves or refutes the frozen claims about them.

Modelling conventions:
* Python `datetime` timestamps become `Nat` (an abstract instant; only
  ordering and differences matter to the code under study).
* Python floats that are merely stored and compared (`snr`, metric values)
  become `Int`; the queue statistic `avg_queue_time_ms`, which is computed
  with float arithmetic, is modelled with exact rationals `ℚ` (no claim
  depends on its value).
* Python dicts used as maps with insertion order become association lists
  `List (String × α)` with the dict update law: updating an existing key
  keeps its position, inserting a new key appends.
* `uuid.uuid4()` and `datetime.utcnow()` are nondeterministic inputs; the
  embedded operations take the generated id and the current time as extra
  arguments.
* A send handler that raises an exception and one that returns `False`
  drive the queue through the identical failure path
  (`MessageQueue._send_message`), so handlers are modelled as
  `QueuedMessage → Bool`.
-/

namespace MeshBridge

/-- `MessageStatus` from models.py. -/
inductive MessageStatus where
  | PENDING
  | SENDING
  | DELIVERED
  | FAILED
  | ACKNOWLEDGED
deriving DecidableEq, Repr

/-- Enum member name, as serialized by `QueuedMessage.to_dict` (`.name`). -/
def MessageStatus.pname : MessageStatus → String
  | .PENDING => "PENDING"
  | .SENDING => "SENDING"
  | .DELIVERED => "DELIVERED"
  | .FAILED => "FAILED"
  | .ACKNOWLEDGED => "ACKNOWLEDGED"

/-- Name lookup `MessageStatus[name]`; raises (here: `none`) on unknown names. -/
def MessageStatus.ofName : String → Option MessageStatus
  | "PENDING" => some .PENDING
  | "SENDING" => some .SENDING
  | "DELIVERED" => some .DELIVERED
  | "FAILED" => some .FAILED
  | "ACKNOWLEDGED" => some .ACKNOWLEDGED
  | _ => none

/-- `AlertPriority` from models.py (CRITICAL=1 … INFO=5). -/
inductive AlertPriority where
  | CRITICAL
  | HIGH
  | MEDIUM
  | LOW
  | INFO
deriving DecidableEq, Repr

/-- `.value` of the Python enum. -/
def AlertPriority.val : AlertPriority → Nat
  | .CRITICAL => 1
  | .HIGH => 2
  | .MEDIUM => 3
  | .LOW => 4
  | .INFO => 5

/-- `AlertPriority(v)`: construct from the numeric value.  The queue only
calls this with `min (val + 1) 5`, i.e. values in 2..5. -/
def AlertPriority.ofVal : Nat → AlertPriority
  | 1 => .CRITICAL
  | 2 => .HIGH
  | 3 => .MEDIUM
  | 4 => .LOW
  | _ => .INFO

/-- Enum member name (`.name`). -/
def AlertPriority.pname : AlertPriority → String
  | .CRITICAL => "CRITICAL"
  | .HIGH => "HIGH"
  | .MEDIUM => "MEDIUM"
  | .LOW => "LOW"
  | .INFO => "INFO"

/-- Name lookup `AlertPriority[name]`. -/
def AlertPriority.ofName : String → Option AlertPriority
  | "CRITICAL" => some .CRITICAL
  | "HIGH" => some .HIGH
  | "MEDIUM" => some .MEDIUM
  | "LOW" => some .LOW
  | "INFO" => some .INFO
  | _ => none

/-- `Protocol` from models.py. -/
inductive Protocol where
  | MESHTASTIC
  | NOMADNET
  | BOTH
deriving DecidableEq, Repr

/-- Enum member name (`.name`). -/
def Protocol.pname : Protocol → String
  | .MESHTASTIC => "MESHTASTIC"
  | .NOMADNET => "NOMADNET"
  | .BOTH => "BOTH"

/-- Name lookup `Protocol[name]`. -/
def Protocol.ofName : String → Option Protocol
  | "MESHTASTIC" => some .MESHTASTIC
  | "NOMADNET" => some .NOMADNET
  | "BOTH" => some .BOTH
  | _ => none

/-- A JSON-like scalar stored in the opaque `metadata` maps.  The core code
only ever writes the keys `alert_id` (a string) and `escalation` (a bool). -/
inductive JVal where
  | s (v : String)
  | b (v : Bool)
  | n (v : Nat)
deriving DecidableEq, Repr

/-- `QueuedMessage` dataclass from models.py. -/
structure QueuedMessage where
  id : String
  text : String
  destination : Option String
  priority : AlertPriority
  protocol : Protocol
  status : MessageStatus
  created_at : Nat
  sent_at : Option Nat
  delivered_at : Option Nat
  retry_count : Nat
  max_retries : Nat
  metadata : List (String × JVal)
deriving DecidableEq, Repr

/-! ### Association-list primitives (Python dict with insertion order) -/

/-- `d[k]` lookup returning `None` when absent. -/
def alGet {α : Type} (l : List (String × α)) (k : String) : Option α :=
  (l.find? (fun kv => kv.1 == k)).map (fun kv => kv.2)

/-- `d[k] = v`: update in place when the key exists, else append. -/
def alPut {α : Type} (l : List (String × α)) (k : String) (v : α) :
    List (String × α) :=
  if l.any (fun kv => kv.1 == k) then
    l.map (fun kv => if kv.1 == k then (k, v) else kv)
  else
    l ++ [(k, v)]

/-- `d.pop(k)`: remove the entry for `k` (keys are unique in a dict). -/
def alDrop {α : Type} (l : List (String × α)) (k : String) :
    List (String × α) :=
  l.eraseP (fun kv => kv.1 == k)

/-! ### PriorityQueue (message_queue.py, class PriorityQueue)

The Python class stores a `heapq` binary heap of
`(priority_value, counter, message)` triples.  Every observable operation
(`pop`, `peek`, `get_all`) depends only on the multiset of triples ordered
lexicographically by `(priority_value, counter)` — counters are pairwise
distinct, so the order is total and the heap's internal array layout is
unobservable.  We therefore keep the triples as a list in insertion order
and sort on demand. -/

/-- A heap entry `(priority_value, counter, message)`. -/
abbrev QEntry := Nat × Nat × QueuedMessage

/-- Lexicographic comparison on `(priority_value, counter)`: the order the
Python tuples `(priority_val, counter, message)` are heap-ordered by. -/
def entryLe (a b : QEntry) : Bool :=
  a.1 < b.1 || (a.1 == b.1 && a.2.1 ≤ b.2.1)

/-- `PriorityQueue`: list of entries (insertion order) plus the monotonic
insertion counter. -/
structure PQueue where
  heap : List QEntry
  counter : Nat
deriving DecidableEq, Repr

/-- The empty queue (`PriorityQueue.__init__`). -/
def PQueue.init : PQueue := { heap := [], counter := 0 }

/-- `push`: insert with the current counter as FIFO tiebreaker. -/
def PQueue.push (q : PQueue) (m : QueuedMessage) : PQueue :=
  { heap := q.heap ++ [(m.priority.val, q.counter, m)]
    counter := q.counter + 1 }

/-- The heap sorted by `(priority_value, counter)`: the order in which
`pop` drains the queue and `get_all` lists it. -/
def PQueue.sortedHeap (q : PQueue) : List QEntry :=
  q.heap.insertionSort (fun a b => entryLe a b = true)

/-- `get_all`: snapshot in sorted order (the Python method sorts the
heap's triples). -/
def PQueue.get_all (q : PQueue) : List QueuedMessage :=
  q.sortedHeap.map (fun e => e.2.2)

/-- `pop`: remove and return the minimum entry's message. -/
def PQueue.pop (q : PQueue) : Option QueuedMessage × PQueue :=
  match q.sortedHeap with
  | [] => (none, q)
  | e :: _ => (some e.2.2, { q with heap := q.heap.erase e })

/-- `peek`. -/
def PQueue.peek (q : PQueue) : Option QueuedMessage :=
  match q.sortedHeap with
  | [] => none
  | e :: _ => some e.2.2

/-- `size`. -/
def PQueue.size (q : PQueue) : Nat := q.heap.length

/-- `is_empty`. -/
def PQueue.is_empty (q : PQueue) : Bool := q.heap.isEmpty

/-- `remove(message_id)`: drop the first entry whose message has the given
id (ids are unique in every reachable queue), re-heapify. -/
def PQueue.removeId (q : PQueue) (mid : String) : Bool × PQueue :=
  (q.heap.any (fun e => e.2.2.id == mid),
   { q with heap := q.heap.eraseP (fun e => e.2.2.id == mid) })

/-! ### MessageQueue (message_queue.py, class MessageQueue) -/

/-- Queue statistics (`self.stats`).  `avg_queue_time_ms` is float
arithmetic in Python; exact rationals stand in for floats here. -/
structure QStats where
  total_queued : Nat
  total_sent : Nat
  total_failed : Nat
  total_retried : Nat
  avg_queue_time_ms : ℚ
deriving DecidableEq, Repr

/-- Initial statistics. -/
def QStats.init : QStats :=
  { total_queued := 0, total_sent := 0, total_failed := 0
    total_retried := 0, avg_queue_time_ms := 0 }

/-- The configuration values the queue and alert manager read from
`config` (config.py); all are environment-configurable. -/
structure Config where
  max_queue_size : Nat
  batch_size : Nat
  max_retries : Nat
  escalation_timeout_default : Nat
deriving DecidableEq, Repr

/-- The default configuration (QUEUE_MAX_SIZE=1000, QUEUE_BATCH_SIZE=10,
ALERT_MAX_RETRIES=3, ALERT_ESCALATION_TIMEOUT=300). -/
def Config.default : Config :=
  { max_queue_size := 1000, batch_size := 10, max_retries := 3
    escalation_timeout_default := 300 }

/-- `MessageQueue` state: the priority queue plus the `failed`/`sent`
dicts and statistics. -/
structure MessageQueue where
  queue : PQueue
  failed_messages : List (String × QueuedMessage)
  sent_messages : List (String × QueuedMessage)
  stats : QStats
deriving DecidableEq, Repr

/-- A fresh `MessageQueue` (before loading persisted state). -/
def MessageQueue.init : MessageQueue :=
  { queue := PQueue.init, failed_messages := [], sent_messages := []
    stats := QStats.init }

/-- Python `max(messages, key=lambda m: m.priority.value)`: the FIRST
element attaining the maximal key, by left fold. -/
def pyMaxByVal (m0 : QueuedMessage) (rest : List QueuedMessage) :
    QueuedMessage :=
  rest.foldl (fun best m => if best.priority.val < m.priority.val then m else best) m0

/-- `MessageQueue._drop_lowest_priority`: evict the first lowest-priority
(highest value) message of the sorted snapshot into `failed_messages` with
status FAILED. -/
def MessageQueue.dropLowest (mq : MessageQueue) : MessageQueue :=
  match mq.queue.get_all with
  | [] => mq
  | m0 :: rest =>
    let lowest := pyMaxByVal m0 rest
    { mq with
      queue := (mq.queue.removeId lowest.id).2
      failed_messages :=
        alPut mq.failed_messages lowest.id { lowest with status := .FAILED } }

/-- `MessageQueue.enqueue`: construct a fresh PENDING message and push it,
evicting the lowest-priority message first when the queue is full.
`mid` is the generated uuid, `now` the construction time. -/
def MessageQueue.enqueue (cfg : Config) (mq : MessageQueue) (text : String)
    (dest : Option String) (pri : AlertPriority) (proto : Protocol)
    (meta : List (String × JVal)) (mid : String) (now : Nat) :
    MessageQueue × String :=
  let mq := if cfg.max_queue_size ≤ mq.queue.size then mq.dropLowest else mq
  let m : QueuedMessage :=
    { id := mid, text := text, destination := dest, priority := pri
      protocol := proto, status := .PENDING, created_at := now
      sent_at := none, delivered_at := none, retry_count := 0
      max_retries := cfg.max_retries, metadata := meta }
  ({ mq with
      queue := mq.queue.push m
      stats := { mq.stats with total_queued := mq.stats.total_queued + 1 } },
   mid)

/-- `MessageQueue.enqueue_message`: push an existing message object. -/
def MessageQueue.enqueue_message (cfg : Config) (mq : MessageQueue)
    (m : QueuedMessage) : MessageQueue × String :=
  let mq := if cfg.max_queue_size ≤ mq.queue.size then mq.dropLowest else mq
  ({ mq with
      queue := mq.queue.push m
      stats := { mq.stats with total_queued := mq.stats.total_queued + 1 } },
   m.id)

/-- One-step priority demotion applied on retry
(`_handle_send_failure`): CRITICAL is pinned, everything else moves one
value up, saturating at INFO. -/
def demote (p : AlertPriority) : AlertPriority :=
  if p ≠ .CRITICAL then AlertPriority.ofVal (min (p.val + 1) AlertPriority.INFO.val)
  else p

/-- `MessageQueue._handle_send_failure`. -/
def MessageQueue.handleSendFailure (mq : MessageQueue) (m : QueuedMessage) :
    MessageQueue :=
  let m := { m with retry_count := m.retry_count + 1 }
  let mq := { mq with stats := { mq.stats with total_retried := mq.stats.total_retried + 1 } }
  if m.retry_count < m.max_retries then
    let m := { m with status := .PENDING, priority := demote m.priority }
    { mq with queue := mq.queue.push m }
  else
    let m := { m with status := .FAILED }
    { mq with
      failed_messages := alPut mq.failed_messages m.id m
      stats := { mq.stats with total_failed := mq.stats.total_failed + 1 } }

/-- `MessageQueue._send_message`: mark SENDING, call the handler; on
success record DELIVERED in `sent_messages` and update the moving
average, else take the failure path. -/
def MessageQueue.sendMessage (mq : MessageQueue)
    (handler : QueuedMessage → Bool) (m : QueuedMessage) (now : Nat) :
    MessageQueue :=
  let m := { m with status := .SENDING, sent_at := some now }
  if handler m then
    let m := { m with status := .DELIVERED, delivered_at := some now }
    let total := mq.stats.total_sent + 1
    let queue_time : ℚ := ((now : ℚ) - (m.created_at : ℚ)) * 1000
    { mq with
      sent_messages := alPut mq.sent_messages m.id m
      stats := { mq.stats with
        total_sent := total
        avg_queue_time_ms :=
          (mq.stats.avg_queue_time_ms * ((total : ℚ) - 1) + queue_time) / (total : ℚ) } }
  else
    mq.handleSendFailure m

/-- Inner loop of `MessageQueue._process_batch`, with the remaining batch
budget as fuel. -/
def MessageQueue.processBatchAux (handler : QueuedMessage → Bool) (now : Nat) :
    Nat → MessageQueue → MessageQueue
  | 0, mq => mq
  | fuel + 1, mq =>
    match mq.queue.pop with
    | (none, _) => mq
    | (some m, q) =>
      MessageQueue.processBatchAux handler now fuel
        (MessageQueue.sendMessage { mq with queue := q } handler m now)

/-- `MessageQueue._process_batch`: drain up to `batch_size` messages
through the send handler (the handler is assumed installed; with no
handler the Python method is a no-op). -/
def MessageQueue.processBatch (cfg : Config) (mq : MessageQueue)
    (handler : QueuedMessage → Bool) (now : Nat) : MessageQueue :=
  MessageQueue.processBatchAux handler now cfg.batch_size mq

/-- `MessageQueue.retry_failed`: move a failed message back to the queue
with retry budget reset; no queue-size check is performed. -/
def MessageQueue.retryFailed (mq : MessageQueue) (mid : String) :
    Bool × MessageQueue :=
  match alGet mq.failed_messages mid with
  | none => (false, mq)
  | some m =>
    let m := { m with status := .PENDING, retry_count := 0 }
    (true,
     { mq with
        failed_messages := alDrop mq.failed_messages mid
        queue := mq.queue.push m })

/-- `MessageQueue.retry_all_failed`: retry every failed id (snapshot of
the key list, as `list(self.failed_messages.keys())`). -/
def MessageQueue.retryAllFailed (mq : MessageQueue) : Nat × MessageQueue :=
  (mq.failed_messages.map (fun kv => kv.1)).foldl
    (fun acc mid =>
      let r := acc.2.retryFailed mid
      (if r.1 then acc.1 + 1 else acc.1, r.2))
    (0, mq)

/-! ### Persistence (message_queue.py `_persist_messages`,
`_load_persisted_messages`, `_dict_to_message`) -/

/-- The JSON object `QueuedMessage.to_dict` produces: enum fields are
serialized by name, timestamps by value (ISO round-trips exactly). -/
structure MsgDict where
  id : String
  text : String
  destination : Option String
  priority : String
  protocol : String
  status : String
  created_at : Nat
  sent_at : Option Nat
  delivered_at : Option Nat
  retry_count : Nat
  max_retries : Nat
  metadata : List (String × JVal)
deriving DecidableEq, Repr

/-- `QueuedMessage.to_dict` (models.py). -/
def QueuedMessage.to_dict (m : QueuedMessage) : MsgDict :=
  { id := m.id, text := m.text, destination := m.destination
    priority := m.priority.pname, protocol := m.protocol.pname
    status := m.status.pname, created_at := m.created_at
    sent_at := m.sent_at, delivered_at := m.delivered_at
    retry_count := m.retry_count, max_retries := m.max_retries
    metadata := m.metadata }

/-- `MessageQueue._dict_to_message`: rebuild a message; an unknown enum
name raises inside the `try` and yields `None`.  Note the source does not
read back `sent_at`/`delivered_at`: they reset to `None`. -/
def dictToMessage (d : MsgDict) : Option QueuedMessage :=
  match AlertPriority.ofName d.priority, Protocol.ofName d.protocol,
        MessageStatus.ofName d.status with
  | some p, some pr, some st =>
    some { id := d.id, text := d.text, destination := d.destination
           priority := p, protocol := pr, status := st
           created_at := d.created_at, sent_at := none, delivered_at := none
           retry_count := d.retry_count, max_retries := d.max_retries
           metadata := d.metadata }
  | _, _, _ => none

/-- The JSON document written to `<persistence_path>/queue.json`. -/
structure PersistData where
  pending : List MsgDict
  failed : List MsgDict
  stats : QStats
  timestamp : Nat
deriving DecidableEq, Repr

/-- The payload `_persist_messages` serializes: the sorted pending
snapshot and the failed dict's values, in order. -/
def MessageQueue.persistData (mq : MessageQueue) (now : Nat) : PersistData :=
  { pending := mq.queue.get_all.map QueuedMessage.to_dict
    failed := mq.failed_messages.map (fun kv => kv.2.to_dict)
    stats := mq.stats
    timestamp := now }

/-- File-system effects, for stating how the persistence write is
performed.  `write` is a plain in-place `open(path, "w")` overwrite;
the other constructors describe the temp-file/fsync/rename protocol the
specification prescribes (the source never performs them). -/
inductive FileOp where
  | write (path : String) (data : PersistData)
  | writeTemp (path : String) (data : PersistData)
  | fsyncFile (path : String)
  | renameFile (src dst : String)
deriving DecidableEq, Repr

/-- The file operations `_persist_messages` performs: a single direct
overwrite of `queue.json` (`open(persist_file, "w"); json.dump`). -/
def MessageQueue.persistFileOps (mq : MessageQueue) (now : Nat) : List FileOp :=
  [FileOp.write "queue.json" (mq.persistData now)]

/-- `MessageQueue.stop`: cancel the worker and persist.  The in-memory
state is unchanged; the effect is the persistence write. -/
def MessageQueue.stopQueue (mq : MessageQueue) (now : Nat) :
    MessageQueue × List FileOp :=
  (mq, mq.persistFileOps now)

/-- One tick of the worker loop `_process_loop` together with its file
effects: the body calls only `_process_batch` and sleeps — no persistence
call occurs anywhere in the worker path
(`_process_batch`/`_send_message`/`_handle_send_failure`). -/
def MessageQueue.processTick (cfg : Config) (mq : MessageQueue)
    (handler : QueuedMessage → Bool) (now : Nat) :
    MessageQueue × List FileOp :=
  (mq.processBatch cfg handler now, [])

/-- The atomic-write protocol the specification claims: write a temp
file, fsync it, rename it over `queue.json`. -/
def AtomicWritePattern (ops : List FileOp) : Prop :=
  ∃ tmp d, ops = [FileOp.writeTemp tmp d, FileOp.fsyncFile tmp,
                  FileOp.renameFile tmp "queue.json"]

/-- `MessageQueue._load_persisted_messages`: push every decodable pending
entry (in file order), then restore the failed map; corrupt entries are
skipped. -/
def MessageQueue.loadPersisted (mq : MessageQueue) (d : PersistData) :
    MessageQueue :=
  let mq := d.pending.foldl
    (fun acc md =>
      match dictToMessage md with
      | some m => { acc with queue := acc.queue.push m }
      | none => acc) mq
  d.failed.foldl
    (fun acc md =>
      match dictToMessage md with
      | some m => { acc with failed_messages := alPut acc.failed_messages m.id m }
      | none => acc) mq

/-! ### Alert and AlertManager (models.py, alerts.py) -/

/-- `Alert` dataclass from models.py. -/
structure Alert where
  id : String
  title : String
  message : String
  priority : AlertPriority
  source : String
  category : String
  created_at : Nat
  acknowledged : Bool
  acknowledged_by : Option String
  acknowledged_at : Option Nat
  escalated : Bool
  escalated_at : Option Nat
  routing_protocol : Protocol
  target_nodes : List String
  metadata : List (String × JVal)
deriving DecidableEq, Repr

/-- The `priority_prefix` dict literal inside `Alert.to_mesh_message`. -/
def priorityPrefixTable : List (AlertPriority × String) :=
  [(.CRITICAL, "[!!!]"), (.HIGH, "[!!]"), (.MEDIUM, "[!]"),
   (.LOW, "[i]"), (.INFO, "[.]")]

/-- `Alert.to_mesh_message` (models.py): dict lookup with `"[?]"` default,
then the f-string `"{prefix} {title}: {message}"`.  No truncation of any
kind is performed. -/
def Alert.to_mesh_message (a : Alert) : String :=
  let pfx := ((priorityPrefixTable.find? (fun kv => kv.1 == a.priority)).map
    (fun kv => kv.2)).getD "[?]"
  pfx ++ " " ++ a.title ++ ": " ++ a.message

/-- A routing rule entry (the dicts in `_default_routing_rules`). -/
structure RoutingRule where
  priority : AlertPriority
  protocol : Protocol
  escalation_timeout : Nat
  require_ack : Bool
deriving DecidableEq, Repr

/-- `AlertManager._default_routing_rules`. -/
def defaultRoutingRules : List RoutingRule :=
  [{ priority := .CRITICAL, protocol := .BOTH, escalation_timeout := 60,
     require_ack := true },
   { priority := .HIGH, protocol := .MESHTASTIC, escalation_timeout := 300,
     require_ack := true },
   { priority := .MEDIUM, protocol := .MESHTASTIC, escalation_timeout := 1800,
     require_ack := false },
   { priority := .LOW, protocol := .NOMADNET, escalation_timeout := 0,
     require_ack := false },
   { priority := .INFO, protocol := .NOMADNET, escalation_timeout := 0,
     require_ack := false }]

/-- Alert-manager statistics (the fields claims touch). -/
structure AStats where
  total_alerts : Nat
  acknowledged : Nat
  escalated : Nat
deriving DecidableEq, Repr

/-- `AlertManager` state: the three alert dicts, the routing-rule table,
the ISP monitor's `failover_active` flag, and the owned message queue. -/
structure AlertManager where
  active_alerts : List (String × Alert)
  acknowledged_alerts : List (String × Alert)
  escalated_alerts : List (String × Alert)
  routing_rules : List RoutingRule
  failover_active : Bool
  message_queue : MessageQueue
  astats : AStats
deriving DecidableEq, Repr

/-- A freshly constructed `AlertManager`. -/
def AlertManager.init : AlertManager :=
  { active_alerts := [], acknowledged_alerts := [], escalated_alerts := []
    routing_rules := defaultRoutingRules, failover_active := false
    message_queue := MessageQueue.init
    astats := { total_alerts := 0, acknowledged := 0, escalated := 0 } }

/-- The protocol of the routing rule matching a priority, with the
`MESHTASTIC` fallback of `_determine_protocol` when no rule matches. -/
def AlertManager.ruleProtocol (mgr : AlertManager) (p : AlertPriority) :
    Protocol :=
  match mgr.routing_rules.find? (fun r => r.priority == p) with
  | some r => r.protocol
  | none => .MESHTASTIC

/-- `AlertManager._determine_protocol`: rule lookup, then the failover
override forcing MESHTASTIC for CRITICAL/HIGH while the ISP monitor's
`failover_active` flag is set. -/
def AlertManager.determineProtocol (mgr : AlertManager) (a : Alert) :
    Protocol :=
  let protocol := mgr.ruleProtocol a.priority
  if mgr.failover_active &&
      (a.priority == .CRITICAL || a.priority == .HIGH) then
    .MESHTASTIC
  else
    protocol

/-- `AlertManager.send_alert`: build the alert, fix its routing protocol,
store it in `active_alerts`, and enqueue the mesh-formatted text with
metadata `{"alert_id": id}`.  `aid`/`mid` are the generated uuids, `now`
the creation instant. -/
def AlertManager.sendAlert (cfg : Config) (mgr : AlertManager)
    (title message : String) (priority : AlertPriority)
    (source category : String) (target_nodes : List String)
    (metadata : List (String × JVal)) (aid mid : String) (now : Nat) :
    AlertManager × String :=
  let a : Alert :=
    { id := aid, title := title, message := message, priority := priority
      source := source, category := category, created_at := now
      acknowledged := false, acknowledged_by := none, acknowledged_at := none
      escalated := false, escalated_at := none
      routing_protocol := .MESHTASTIC, target_nodes := target_nodes
      metadata := metadata }
  let protocol := mgr.determineProtocol a
  let a := { a with routing_protocol := protocol }
  let mgr := { mgr with
    active_alerts := alPut mgr.active_alerts aid a
    astats := { mgr.astats with total_alerts := mgr.astats.total_alerts + 1 } }
  let mq := (mgr.message_queue.enqueue cfg a.to_mesh_message
    target_nodes.head? priority protocol [("alert_id", JVal.s aid)] mid now).1
  ({ mgr with message_queue := mq }, aid)

/-- `AlertManager.acknowledge_alert`: move the alert from `active` (or
`escalated`) into `acknowledged`, setting the acknowledgement fields;
unknown ids return `False` and change nothing. -/
def AlertManager.acknowledgeAlert (mgr : AlertManager) (aid : String)
    (acknowledged_by : String) (now : Nat) : Bool × AlertManager :=
  match alGet mgr.active_alerts aid with
  | some a =>
    let a := { a with acknowledged := true
                      acknowledged_by := some acknowledged_by
                      acknowledged_at := some now }
    (true,
     { mgr with
        active_alerts := alDrop mgr.active_alerts aid
        acknowledged_alerts := alPut mgr.acknowledged_alerts aid a
        astats := { mgr.astats with acknowledged := mgr.astats.acknowledged + 1 } })
  | none =>
    match alGet mgr.escalated_alerts aid with
    | some a =>
      let a := { a with acknowledged := true
                        acknowledged_by := some acknowledged_by
                        acknowledged_at := some now }
      (true,
       { mgr with
          escalated_alerts := alDrop mgr.escalated_alerts aid
          acknowledged_alerts := alPut mgr.acknowledged_alerts aid a
          astats := { mgr.astats with acknowledged := mgr.astats.acknowledged + 1 } })
    | none => (false, mgr)

/-- The escalation timeout `_check_escalations` resolves for a priority:
the matching rule's value, defaulting to `config.alerts.escalation_timeout`
when no rule matches. -/
def AlertManager.ruleTimeout (cfg : Config) (mgr : AlertManager)
    (p : AlertPriority) : Nat :=
  match mgr.routing_rules.find? (fun r => r.priority == p) with
  | some r => r.escalation_timeout
  | none => cfg.escalation_timeout_default

/-- `AlertManager._escalate_alert`: if the alert is still active, set its
escalation fields, move it to `escalated_alerts`, and enqueue
`"[ESCALATION] " + to_mesh_message` at CRITICAL priority on BOTH with
metadata `{"alert_id": id, "escalation": True}`. -/
def AlertManager.escalateAlert (cfg : Config) (mgr : AlertManager)
    (aid : String) (mid : String) (now : Nat) : AlertManager :=
  match alGet mgr.active_alerts aid with
  | none => mgr
  | some a =>
    let a := { a with escalated := true, escalated_at := some now }
    let mgr := { mgr with
      active_alerts := alDrop mgr.active_alerts aid
      escalated_alerts := alPut mgr.escalated_alerts aid a
      astats := { mgr.astats with escalated := mgr.astats.escalated + 1 } }
    let escMsg := "[ESCALATION] " ++ a.to_mesh_message
    let mq := (mgr.message_queue.enqueue cfg escMsg none .CRITICAL .BOTH
      [("alert_id", JVal.s aid), ("escalation", JVal.b true)] mid now).1
    { mgr with message_queue := mq }

/-- The ids `_check_escalations` collects under the lock: active alerts
whose rule timeout is positive, whose age has reached the timeout, and
which are not yet escalated. -/
def AlertManager.toEscalate (cfg : Config) (mgr : AlertManager) (now : Nat) :
    List String :=
  (mgr.active_alerts.filter (fun kv =>
      let t := mgr.ruleTimeout cfg kv.2.priority
      decide (0 < t) && decide (kv.2.created_at + t ≤ now) &&
        !kv.2.escalated)).map (fun kv => kv.1)

/-- `AlertManager._check_escalations`: collect due alerts, then escalate
each in turn.  `mids` supplies the uuid for each escalation message. -/
def AlertManager.checkEscalations (cfg : Config) (mgr : AlertManager)
    (now : Nat) (mids : String → String) : AlertManager :=
  (mgr.toEscalate cfg now).foldl
    (fun acc aid => AlertManager.escalateAlert cfg acc aid (mids aid) now) mgr

/-! ### Node catalog (meshtastic_bridge.py) -/

/-- A value looked up from a Python dict, distinguishing the three cases
`d.get(k, default)` distinguishes: key absent (the default is used), key
present with value `None`, key present with a value. -/
inductive PyField (α : Type) where
  | absent
  | pnull
  | pval (v : α)
deriving DecidableEq, Repr

/-- `d.get(k, default)`: `absent ↦ default`, `None ↦ None`, `v ↦ v`.
Note a present `None` is returned as-is — it is NOT replaced by the
default. -/
def PyField.getD {α : Type} : PyField α → Option α → Option α
  | .absent, d => d
  | .pnull, _ => none
  | .pval v, _ => some v

/-- The `user` sub-dict of a node packet. -/
structure UserData where
  longName : PyField String
  shortName : PyField String
  hwModel : PyField String
  isLicensed : PyField Bool
  role : PyField String
deriving DecidableEq, Repr

/-- The `position` sub-dict (float coordinates are opaque values here). -/
structure PositionData where
  latitude : PyField Int
  longitude : PyField Int
  altitude : PyField Int
deriving DecidableEq, Repr

/-- The `deviceMetrics` sub-dict. -/
structure MetricsData where
  batteryLevel : PyField Int
  voltage : PyField Int
deriving DecidableEq, Repr

/-- An inbound node-info packet as consumed by `_update_node_from_dict`.
A sub-dict that is absent, empty, or `None` is falsy in Python and is
skipped whole; that case is `none` here. -/
structure NodePacket where
  user : Option UserData
  position : Option PositionData
  deviceMetrics : Option MetricsData
  snr : PyField Int
  rssi : PyField Int
  hopsAway : PyField Int
deriving DecidableEq, Repr

/-- `MeshNode` dataclass (models.py).  The dataclass annotates
`is_licensed : bool = False` and `hops_away : int = 0`, but Python's
dynamic typing lets `_update_node_from_dict` store `None` into any field,
so every updatable field is an `Option` here; the initial values mirror
the dataclass defaults. -/
structure MeshNode where
  node_id : String
  long_name : Option String
  short_name : Option String
  hw_model : Option String
  snr : Option Int
  rssi : Option Int
  last_heard : Option Nat
  battery_level : Option Int
  voltage : Option Int
  latitude : Option Int
  longitude : Option Int
  altitude : Option Int
  is_licensed : Option Bool
  role : Option String
  hops_away : Option Int
deriving DecidableEq, Repr

/-- `MeshNode(node_id=node_id)`: dataclass defaults. -/
def MeshNode.mk0 (nid : String) : MeshNode :=
  { node_id := nid, long_name := none, short_name := none, hw_model := none
    snr := none, rssi := none, last_heard := none, battery_level := none
    voltage := none, latitude := none, longitude := none, altitude := none
    is_licensed := some false, role := none, hops_away := some 0 }

/-- `MeshtasticBridge._update_node_from_dict`: create the node on first
sighting, update each field individually with `sub.get(key, current)`,
and stamp `last_heard` with the current time. -/
def updateNodeFromDict (nodes : List (String × MeshNode)) (nid : String)
    (data : NodePacket) (now : Nat) : List (String × MeshNode) :=
  let node := (alGet nodes nid).getD (MeshNode.mk0 nid)
  let node :=
    match data.user with
    | none => node
    | some u =>
      { node with
        long_name := u.longName.getD node.long_name
        short_name := u.shortName.getD node.short_name
        hw_model := u.hwModel.getD node.hw_model
        is_licensed := u.isLicensed.getD node.is_licensed
        role := u.role.getD node.role }
  let node :=
    match data.position with
    | none => node
    | some p =>
      { node with
        latitude := p.latitude.getD node.latitude
        longitude := p.longitude.getD node.longitude
        altitude := p.altitude.getD node.altitude }
  let node :=
    match data.deviceMetrics with
    | none => node
    | some dm =>
      { node with
        battery_level := dm.batteryLevel.getD node.battery_level
        voltage := dm.voltage.getD node.voltage }
  let node :=
    { node with
      snr := data.snr.getD node.snr
      rssi := data.rssi.getD node.rssi
      hops_away := data.hopsAway.getD node.hops_away
      last_heard := some now }
  alPut nodes nid node

/-- `MeshtasticBridge._update_node_signal`: update snr/rssi for a known
node, skipping explicit `None` arguments; unknown nodes are ignored. -/
def updateNodeSignal (nodes : List (String × MeshNode)) (nid : String)
    (snr : Option Int) (rssi : Option Int) (now : Nat) :
    List (String × MeshNode) :=
  match alGet nodes nid with
  | none => nodes
  | some n =>
    let n := match snr with | none => n | some v => { n with snr := some v }
    let n := match rssi with | none => n | some v => { n with rssi := some v }
    alPut nodes nid { n with last_heard := some now }

/-! ### Lemmas about the association-list primitives -/

/-- The key list of an association list. -/
def alKeys {α : Type} (l : List (String × α)) : List String :=
  l.map Prod.fst

theorem find?_map_put {α : Type} (l : List (String × α)) (k : String) (v : α) :
    (l.map (fun kv => if kv.1 == k then (k, v) else kv)).find?
      (fun kv => kv.1 == k)
      = (l.find? (fun kv => kv.1 == k)).map (fun _ => (k, v)) := by
  induction l with
  | nil => rfl
  | cons hd t ih =>
    rw [List.map_cons]
    by_cases hk : (hd.1 == k) = true
    · rw [if_pos hk]
      rw [List.find?_cons, List.find?_cons]
      have hself : (((k, v) : String × α).1 == k) = true := by simp
      rw [hself, hk]
      rfl
    · rw [if_neg hk]
      rw [Bool.not_eq_true] at hk
      rw [List.find?_cons, List.find?_cons, hk]
      exact ih

theorem find?_map_put_ne {α : Type} (l : List (String × α)) (k k' : String)
    (v : α) (h : k' ≠ k) :
    (l.map (fun kv => if kv.1 == k then (k, v) else kv)).find?
      (fun kv => kv.1 == k')
      = l.find? (fun kv => kv.1 == k') := by
  induction l with
  | nil => rfl
  | cons hd t ih =>
    rw [List.map_cons]
    by_cases hk : (hd.1 == k) = true
    · have h1 : hd.1 = k := eq_of_beq hk
      have hpk : (((k, v) : String × α).1 == k') = false := by
        simp only [beq_eq_false_iff_ne, ne_eq]
        exact fun e => h e.symm
      have hph : (hd.1 == k') = false := by
        show (hd.1 == k') = false
        rw [h1]
        simpa using hpk
      rw [if_pos hk]
      rw [List.find?_cons, List.find?_cons, hpk, hph]
      exact ih
    · rw [if_neg hk]
      by_cases hk' : (hd.1 == k') = true
      · rw [List.find?_cons, List.find?_cons, hk']
      · rw [Bool.not_eq_true] at hk'
        rw [List.find?_cons, List.find?_cons, hk']
        exact ih

theorem alGet_alPut_self {α : Type} (l : List (String × α)) (k : String)
    (v : α) : alGet (alPut l k v) k = some v := by
  unfold alPut
  by_cases h : l.any (fun kv => kv.1 == k)
  · rw [if_pos h]
    unfold alGet
    rw [find?_map_put]
    rcases hf : l.find? (fun kv => kv.1 == k) with _ | kv
    · rw [List.find?_eq_none] at hf
      rw [List.any_eq_true] at h
      obtain ⟨x, hx, hpx⟩ := h
      exact absurd hpx (hf x hx)
    · rw [hf]
      rfl
  · rw [if_neg h]
    unfold alGet
    rw [List.find?_append]
    have hnone : l.find? (fun kv => kv.1 == k) = none := by
      rw [List.find?_eq_none]
      intro x hx hpx
      exact h (List.any_eq_true.mpr ⟨x, hx, hpx⟩)
    simp [hnone, List.find?_cons]

theorem alGet_alPut_ne {α : Type} (l : List (String × α)) (k k' : String)
    (v : α) (h : k' ≠ k) : alGet (alPut l k v) k' = alGet l k' := by
  unfold alPut
  by_cases hany : l.any (fun kv => kv.1 == k)
  · rw [if_pos hany]
    unfold alGet
    rw [find?_map_put_ne l k k' v h]
  · rw [if_neg hany]
    unfold alGet
    rw [List.find?_append]
    have h3 : ((k : String) == k') = false := by
      simp
      exact fun hkk => h hkk.symm
    simp [List.find?_cons, h3]

theorem alGet_alDrop_ne {α : Type} (l : List (String × α)) (k k' : String)
    (h : k' ≠ k) : alGet (alDrop l k) k' = alGet l k' := by
  induction l with
  | nil => rfl
  | cons hd t ih =>
    by_cases hk : (hd.1 == k) = true
    · have h1 : hd.1 = k := eq_of_beq hk
      have hph : ¬ ((hd.1 == k') = true) := by
        simp only [beq_iff_eq, h1]
        exact fun e => h e.symm
      rw [Bool.not_eq_true] at hph
      unfold alDrop alGet
      rw [List.eraseP_cons, hk]
      simp only [cond_true]
      show _ = Option.map (fun kv => kv.2) (List.find? (fun kv => kv.1 == k') (hd :: t))
      rw [List.find?_cons, hph]
    · rw [Bool.not_eq_true] at hk
      unfold alDrop alGet at ih ⊢
      rw [List.eraseP_cons, hk]
      simp only [cond_false]
      show Option.map (fun kv => kv.2)
        (List.find? (fun kv => kv.1 == k') (hd :: List.eraseP (fun kv => kv.1 == k) t)) = _
      by_cases hk' : (hd.1 == k') = true
      · rw [List.find?_cons, List.find?_cons, hk']
      · rw [Bool.not_eq_true] at hk'
        rw [List.find?_cons, List.find?_cons, hk']
        exact ih

theorem alGet_none_of_key_not_mem {α : Type} (l : List (String × α))
    (k : String) (h : k ∉ alKeys l) : alGet l k = none := by
  unfold alGet
  rw [Option.map_eq_none']
  rw [List.find?_eq_none]
  intro x hx hpx
  exact h (List.mem_map.mpr ⟨x, hx, eq_of_beq hpx⟩)

theorem alGet_alDrop_self {α : Type} (l : List (String × α)) (k : String)
    (h : (alKeys l).Nodup) : alGet (alDrop l k) k = none := by
  induction l with
  | nil => rfl
  | cons hd t ih =>
    simp only [alKeys, List.map_cons, List.nodup_cons] at h
    by_cases hk : (hd.1 == k) = true
    · have h1 : hd.1 = k := eq_of_beq hk
      unfold alDrop
      rw [List.eraseP_cons, hk]
      exact alGet_none_of_key_not_mem t k (h1 ▸ h.1)
    · rw [Bool.not_eq_true] at hk
      unfold alDrop alGet at ih ⊢
      rw [List.eraseP_cons, hk]
      show Option.map (fun kv => kv.2)
        (List.find? (fun kv => kv.1 == k) (hd :: List.eraseP (fun kv => kv.1 == k) t)) = _
      rw [List.find?_cons, hk]
      exact ih h.2

theorem alKeys_alPut_of_mem {α : Type} (l : List (String × α)) (k : String)
    (v : α) (h : l.any (fun kv => kv.1 == k)) :
    alKeys (alPut l k v) = alKeys l := by
  unfold alPut
  rw [if_pos h]
  unfold alKeys
  rw [List.map_map]
  apply List.map_congr_left
  intro kv _
  by_cases hk : kv.1 = k
  · simp [hk]
  · simp [hk]

theorem alKeys_alPut_of_not_mem {α : Type} (l : List (String × α))
    (k : String) (v : α) (h : ¬ l.any (fun kv => kv.1 == k)) :
    alKeys (alPut l k v) = alKeys l ++ [k] := by
  unfold alPut
  rw [if_neg h]
  unfold alKeys
  rw [List.map_append]
  rfl

theorem nodup_alKeys_alPut {α : Type} (l : List (String × α)) (k : String)
    (v : α) (h : (alKeys l).Nodup) : (alKeys (alPut l k v)).Nodup := by
  by_cases hany : l.any (fun kv => kv.1 == k)
  · rw [alKeys_alPut_of_mem l k v hany]; exact h
  · rw [alKeys_alPut_of_not_mem l k v hany]
    rw [List.nodup_append]
    refine ⟨h, List.nodup_singleton k, ?_⟩
    intro a ha
    simp only [List.mem_singleton]
    intro hak
    subst hak
    obtain ⟨kv, hkv, hfst⟩ := List.mem_map.mp ha
    exact hany (List.any_eq_true.mpr ⟨kv, hkv, by simp [hfst]⟩)

theorem nodup_alKeys_alDrop {α : Type} (l : List (String × α)) (k : String)
    (h : (alKeys l).Nodup) : (alKeys (alDrop l k)).Nodup := by
  have hsub : (alDrop l k).Sublist l := List.eraseP_sublist l
  exact (hsub.map Prod.fst).nodup h

theorem alGet_mem {α : Type} (l : List (String × α)) (k : String) (v : α)
    (h : alGet l k = some v) : (k, v) ∈ l := by
  unfold alGet at h
  rcases hf : l.find? (fun kv => kv.1 == k) with _ | kv
  · rw [hf] at h; simp at h
  · rw [hf] at h
    simp only [Option.map] at h
    have hm := List.mem_of_find?_eq_some hf
    have hp := List.find?_some hf
    have : kv.1 = k := eq_of_beq hp
    cases h
    have : kv = (k, kv.2) := by
      cases kv; simp_all
    rw [this] at hm
    exact hm

/-! ### Characterization of `_determine_protocol` -/

theorem determineProtocol_eq (mgr : AlertManager) (a : Alert) :
    mgr.determineProtocol a =
      if mgr.failover_active = true ∧
          (a.priority = .CRITICAL ∨ a.priority = .HIGH)
      then Protocol.MESHTASTIC else mgr.ruleProtocol a.priority := by
  unfold AlertManager.determineProtocol
  by_cases hf : mgr.failover_active = true
  · by_cases hch : a.priority = .CRITICAL ∨ a.priority = .HIGH
    · have hb : (a.priority == AlertPriority.CRITICAL
          || a.priority == AlertPriority.HIGH) = true := by
        rcases hch with h1 | h1 <;> simp [h1]
      rw [hf]
      simp [hb, hch, hf]
    · have hb : (a.priority == AlertPriority.CRITICAL
          || a.priority == AlertPriority.HIGH) = false := by
        push_neg at hch
        cases hpa : a.priority <;> simp_all
      rw [hf]
      simp [hb, hch]
  · have hb : mgr.failover_active = false := by simpa using hf
    rw [hb]
    simp [hf]

/-- C1: while `failover_active` is true, `send_alert` assigns routing
protocol MESHTASTIC (mesh) to every CRITICAL or HIGH alert — both on the
stored `Alert.routing_protocol` and on the enqueued `QueuedMessage` —
regardless of the routing rule for that priority, while every other
priority keeps the protocol of its matching routing rule unchanged. -/
theorem failover_forces_mesh (cfg : Config) (mgr : AlertManager)
    (title message : String) (pri : AlertPriority) (src cat : String)
    (tns : List String) (meta : List (String × JVal)) (aid mid : String)
    (now : Nat) (hf : mgr.failover_active = true) :
    (alGet (AlertManager.sendAlert cfg mgr title message pri src cat tns
        meta aid mid now).1.active_alerts aid).map Alert.routing_protocol
      = some (if pri = .CRITICAL ∨ pri = .HIGH then Protocol.MESHTASTIC
              else mgr.ruleProtocol pri) ∧
    ∃ c m, (AlertManager.sendAlert cfg mgr title message pri src cat tns
        meta aid mid now).1.message_queue.queue.heap.getLast?
        = some (pri.val, c, m) ∧ m.id = mid ∧ m.priority = pri ∧
        m.protocol = (if pri = .CRITICAL ∨ pri = .HIGH then Protocol.MESHTASTIC
                      else mgr.ruleProtocol pri) := by
  unfold AlertManager.sendAlert
  simp only [MessageQueue.enqueue, PQueue.push]
  constructor
  · rw [alGet_alPut_self]
    simp only [Option.map]
    rw [determineProtocol_eq]
    rw [hf]
    simp
  · refine ⟨_, _, List.getLast?_concat _, rfl, rfl, ?_⟩
    rw [determineProtocol_eq]
    rw [hf]
    simp

/-- Witness for `failover_forces_mesh`: a manager in failover with the
default routing rules, sending a HIGH alert (whose rule says MESHTASTIC
anyway) and checking the override clause concretely. -/
theorem failover_forces_mesh_witness :
    (alGet (AlertManager.sendAlert Config.default
        { AlertManager.init with failover_active := true } "t" "m" .HIGH
        "s" "c" [] [] "a1" "q1" 0).1.active_alerts "a1").map
      Alert.routing_protocol = some Protocol.MESHTASTIC := by
  have h := failover_forces_mesh Config.default
    { AlertManager.init with failover_active := true } "t" "m" .HIGH
    "s" "c" [] [] "a1" "q1" 0 rfl
  rw [h.1]
  rfl

/-! ### C2: retry accounting, demotion, and the always-failing scenario -/

/-- A send handler that always fails (returns `False` or raises). -/
def alwaysFail : QueuedMessage → Bool := fun _ => false

/-- The scenario of the claim: one message enqueued at priority `p` with
`max_retries = 3`, processed by the worker against an always-failing
handler. -/
def retryScenario (p : AlertPriority) : MessageQueue :=
  let mq := (MessageQueue.init.enqueue Config.default "t" none p
    .MESHTASTIC [] "m1" 0).1
  MessageQueue.processBatch Config.default mq alwaysFail 5

/-- C2: on a failed send attempt `retry_count` is incremented; while the
incremented count is below `max_retries` the message is pushed back
PENDING with its priority demoted one step (CRITICAL pinned, saturating
at INFO); otherwise it is recorded FAILED in the failed map.  With
`max_retries = 3` and an always-failing handler, a HIGH message ends
FAILED with `retry_count = 3` and priority LOW, while a CRITICAL message
stays CRITICAL. -/
theorem retry_demotion_spec (mq : MessageQueue) (m : QueuedMessage) :
    ((m.retry_count + 1 < m.max_retries →
        (mq.handleSendFailure m).failed_messages = mq.failed_messages ∧
        (mq.handleSendFailure m).queue.heap
          = mq.queue.heap ++ [((demote m.priority).val, mq.queue.counter,
              { m with retry_count := m.retry_count + 1,
                       status := .PENDING, priority := demote m.priority })]) ∧
     (¬ m.retry_count + 1 < m.max_retries →
        (mq.handleSendFailure m).queue.heap = mq.queue.heap ∧
        alGet (mq.handleSendFailure m).failed_messages m.id
          = some { m with retry_count := m.retry_count + 1,
                          status := .FAILED })) ∧
    demote .CRITICAL = .CRITICAL ∧
    (∀ p, (demote p).val
        = if p = .CRITICAL then p.val else min (p.val + 1) 5) ∧
    (∀ p, (demote p).val ≤ AlertPriority.INFO.val) ∧
    alGet (retryScenario .HIGH).failed_messages "m1"
      = some { id := "m1", text := "t", destination := none
               priority := .LOW, protocol := .MESHTASTIC, status := .FAILED
               created_at := 0, sent_at := some 5, delivered_at := none
               retry_count := 3, max_retries := 3, metadata := [] } ∧
    (retryScenario .HIGH).queue.heap = [] ∧
    (alGet (retryScenario .CRITICAL).failed_messages "m1").map
        QueuedMessage.priority = some .CRITICAL := by
  refine ⟨⟨?_, ?_⟩, by decide, by intro p; cases p <;> rfl,
    by intro p; cases p <;> decide, by rfl, by rfl, by rfl⟩
  · intro hlt
    unfold MessageQueue.handleSendFailure
    rw [if_pos hlt]
    exact ⟨rfl, rfl⟩
  · intro hge
    unfold MessageQueue.handleSendFailure
    rw [if_neg hge]
    refine ⟨rfl, ?_⟩
    exact alGet_alPut_self _ _ _

/-- Witness for `retry_demotion_spec` at a concrete queue and message,
discharging both conditional hypotheses. -/
theorem retry_demotion_spec_witness :
    (MessageQueue.init.handleSendFailure
        { id := "w", text := "", destination := none, priority := .HIGH
          protocol := .MESHTASTIC, status := .SENDING, created_at := 0
          sent_at := some 1, delivered_at := none, retry_count := 0
          max_retries := 3, metadata := [] }).queue.heap
      = [((AlertPriority.MEDIUM).val, 0,
          { id := "w", text := "", destination := none, priority := .MEDIUM
            protocol := .MESHTASTIC, status := .PENDING, created_at := 0
            sent_at := some 1, delivered_at := none, retry_count := 1
            max_retries := 3, metadata := [] })] ∧
    alGet (MessageQueue.init.handleSendFailure
        { id := "w", text := "", destination := none, priority := .HIGH
          protocol := .MESHTASTIC, status := .SENDING, created_at := 0
          sent_at := some 1, delivered_at := none, retry_count := 2
          max_retries := 3, metadata := [] }).failed_messages "w"
      = some { id := "w", text := "", destination := none, priority := .HIGH
               protocol := .MESHTASTIC, status := .FAILED, created_at := 0
               sent_at := some 1, delivered_at := none, retry_count := 3
               max_retries := 3, metadata := [] } := by
  constructor
  · have h := (retry_demotion_spec MessageQueue.init
      { id := "w", text := "", destination := none, priority := .HIGH
        protocol := .MESHTASTIC, status := .SENDING, created_at := 0
        sent_at := some 1, delivered_at := none, retry_count := 0
        max_retries := 3, metadata := [] }).1.1 (by decide)
    exact h.2
  · have h := (retry_demotion_spec MessageQueue.init
      { id := "w", text := "", destination := none, priority := .HIGH
        protocol := .MESHTASTIC, status := .SENDING, created_at := 0
        sent_at := some 1, delivered_at := none, retry_count := 2
        max_retries := 3, metadata := [] }).1.2 (by decide)
    exact h.2

/-! ### C7: mesh formatting and (absence of) truncation -/

/-- A 300-character message, long enough that the formatted payload
exceeds 220 bytes. -/
def longMessage : String := String.mk (List.replicate 300 'a')

/-- A MEDIUM alert carrying the long message. -/
def alertLong : Alert :=
  { id := "a1", title := "t", message := longMessage, priority := .MEDIUM
    source := "s", category := "c", created_at := 0, acknowledged := false
    acknowledged_by := none, acknowledged_at := none, escalated := false
    escalated_at := none, routing_protocol := .MESHTASTIC
    target_nodes := [], metadata := [] }

set_option maxRecDepth 4000 in
/-- C7 counterexample: `to_mesh_message` performs no truncation — the
formatted payload of `alertLong` is the full 307-character string
`"[!] t: " ++ message`, exceeding the 220-byte bound, and no ellipsis is
appended. -/
theorem mesh_format_truncation_cex :
    alertLong.to_mesh_message = "[!] t: " ++ longMessage ∧
    alertLong.to_mesh_message.length = 307 ∧
    ¬ alertLong.to_mesh_message.length ≤ 220 := by
  refine ⟨rfl, ?_, ?_⟩
  · show ("[!] t: " ++ longMessage).length = 307
    rw [String.length_append]
    show 7 + (List.replicate 300 'a').length = 307
    simp
  · show ¬ ("[!] t: " ++ longMessage).length ≤ 220
    rw [String.length_append]
    show ¬ 7 + (List.replicate 300 'a').length ≤ 220
    simp

/-- C7 amended: the mesh formatting is exactly
`"<prefix> <title>: <message>"` with prefixes `[!!!]`, `[!!]`, `[!]`,
`[i]`, `[.]` for CRITICAL…INFO; the full message is always included (no
truncation, no ellipsis), so the payload may exceed 220 bytes. -/
theorem mesh_format_spec (a : Alert) :
    a.to_mesh_message =
      (match a.priority with
       | .CRITICAL => "[!!!]"
       | .HIGH => "[!!]"
       | .MEDIUM => "[!]"
       | .LOW => "[i]"
       | .INFO => "[.]") ++ " " ++ a.title ++ ": " ++ a.message := by
  rcases a with ⟨_, _, _, pri, _, _, _, _, _, _, _, _, _, _, _⟩
  cases pri <;> rfl

/-! ### Queue-order machinery for C3/C4 -/

theorem entryLe_total_thm : ∀ a b : QEntry,
    entryLe a b = true ∨ entryLe b a = true := by
  intro a b
  unfold entryLe
  simp only [Bool.or_eq_true, Bool.and_eq_true, decide_eq_true_eq, beq_iff_eq]
  omega

instance : IsTotal QEntry (fun a b => entryLe a b = true) := ⟨entryLe_total_thm⟩

theorem entryLe_trans_thm : ∀ a b c : QEntry, entryLe a b = true →
    entryLe b c = true → entryLe a c = true := by
  intro a b c
  unfold entryLe
  simp only [Bool.or_eq_true, Bool.and_eq_true, decide_eq_true_eq, beq_iff_eq]
  omega

instance : IsTrans QEntry (fun a b => entryLe a b = true) :=
  ⟨entryLe_trans_thm⟩

theorem sortedHeap_perm (q : PQueue) : q.sortedHeap.Perm q.heap :=
  List.perm_insertionSort _ _

theorem sortedHeap_sorted (q : PQueue) :
    q.sortedHeap.Sorted (fun a b => entryLe a b = true) :=
  List.sorted_insertionSort _ _

theorem sortedHeap_nil_iff (q : PQueue) : q.sortedHeap = [] ↔ q.heap = [] := by
  constructor
  · intro h0
    have hperm := sortedHeap_perm q
    rw [h0] at hperm
    exact hperm.symm.eq_nil
  · intro h0
    unfold PQueue.sortedHeap
    rw [h0]
    rfl

/-- Pushing adds one entry. -/
theorem push_size (q : PQueue) (m : QueuedMessage) :
    (q.push m).size = q.size + 1 := by
  simp [PQueue.push, PQueue.size]

/-- Python's first-maximum: `pyMaxByVal` splits its input into a strictly
smaller-valued part, the chosen maximum, and a no-larger-valued tail. -/
theorem pyMaxByVal_split (m0 : QueuedMessage) (rest : List QueuedMessage) :
    ∃ l1 l2, m0 :: rest = l1 ++ (pyMaxByVal m0 rest) :: l2 ∧
      (∀ x ∈ l1, x.priority.val < (pyMaxByVal m0 rest).priority.val) ∧
      (∀ x ∈ l2, x.priority.val ≤ (pyMaxByVal m0 rest).priority.val) := by
  induction rest generalizing m0 with
  | nil => exact ⟨[], [], rfl, by simp, by simp⟩
  | cons r rs ih =>
    by_cases hcmp : m0.priority.val < r.priority.val
    · have hstep : pyMaxByVal m0 (r :: rs) = pyMaxByVal r rs := by
        unfold pyMaxByVal
        rw [List.foldl_cons, if_pos hcmp]
      obtain ⟨l1, l2, heq, hl1, hl2⟩ := ih r
      have hge : r.priority.val ≤ (pyMaxByVal r rs).priority.val := by
        rcases List.mem_append.mp
            (heq ▸ List.mem_cons_self r rs : r ∈ l1 ++ pyMaxByVal r rs :: l2)
          with hin | hin
        · exact le_of_lt (hl1 r hin)
        · rcases List.mem_cons.mp hin with hin0 | hin1
          · exact le_of_eq (congrArg (fun m => m.priority.val) hin0)
          · exact hl2 r hin1
      refine ⟨m0 :: l1, l2, ?_, ?_, ?_⟩
      · rw [hstep, List.cons_append, ← heq]
      · intro x hx
        rw [hstep]
        rcases List.mem_cons.mp hx with hx0 | hx1
        · subst hx0
          omega
        · exact hl1 x hx1
      · intro x hx
        rw [hstep]
        exact hl2 x hx
    · have hstep : pyMaxByVal m0 (r :: rs) = pyMaxByVal m0 rs := by
        unfold pyMaxByVal
        rw [List.foldl_cons, if_neg hcmp]
      obtain ⟨l1, l2, heq, hl1, hl2⟩ := ih m0
      cases l1 with
      | nil =>
        rw [List.nil_append] at heq
        have h1 : m0 = pyMaxByVal m0 rs := (List.cons.injEq _ _ _ _ ▸ heq).1
        have h2 : rs = l2 := (List.cons.injEq _ _ _ _ ▸ heq).2
        refine ⟨[], r :: l2, ?_, by simp, ?_⟩
        · rw [hstep, List.nil_append, ← h1, h2]
        · intro x hx
          rw [hstep, ← h1]
          rcases List.mem_cons.mp hx with hx0 | hx1
          · subst hx0
            omega
          · have := hl2 x hx1
            rw [← h1] at this
            exact this
      | cons a l1' =>
        rw [List.cons_append] at heq
        have h1 : m0 = a := (List.cons.injEq _ _ _ _ ▸ heq).1
        have h2 : rs = l1' ++ pyMaxByVal m0 rs :: l2 :=
          (List.cons.injEq _ _ _ _ ▸ heq).2
        have hm0lt : m0.priority.val < (pyMaxByVal m0 rs).priority.val := by
          apply hl1
          rw [h1]
          exact List.mem_cons_self a l1'
        refine ⟨m0 :: r :: l1', l2, ?_, ?_, ?_⟩
        · rw [hstep]
          simp only [List.cons_append]
          rw [← h2]
        · intro x hx
          rw [hstep]
          rcases List.mem_cons.mp hx with hx0 | hx1
          · subst hx0
            exact hm0lt
          rcases List.mem_cons.mp hx1 with hx0 | hx2
          · subst hx0
            omega
          · apply hl1
            exact List.mem_cons_of_mem a hx2
        · intro x hx
          rw [hstep]
          exact hl2 x hx

/-- The chosen maximum is a member of the snapshot. -/
theorem pyMaxByVal_mem (m0 : QueuedMessage) (rest : List QueuedMessage) :
    pyMaxByVal m0 rest ∈ m0 :: rest := by
  obtain ⟨l1, l2, heq, _, _⟩ := pyMaxByVal_split m0 rest
  rw [heq]
  exact List.mem_append.mpr (Or.inr (List.mem_cons_self _ _))

/-- `_drop_lowest_priority` shrinks a non-empty queue by exactly one. -/
theorem dropLowest_size (mq : MessageQueue) (hne : mq.queue.heap ≠ []) :
    (mq.dropLowest).queue.size + 1 = mq.queue.size := by
  unfold MessageQueue.dropLowest
  cases hga : mq.queue.get_all with
  | nil =>
    exfalso
    unfold PQueue.get_all at hga
    exact hne ((sortedHeap_nil_iff mq.queue).mp (List.map_eq_nil_iff.mp hga))
  | cons m0 rest =>
    have hmem : pyMaxByVal m0 rest ∈ mq.queue.get_all := by
      rw [hga]
      exact pyMaxByVal_mem m0 rest
    unfold PQueue.get_all at hmem
    obtain ⟨e, he_s, he_msg⟩ := List.mem_map.mp hmem
    have he_heap : e ∈ mq.queue.heap := (sortedHeap_perm mq.queue).subset he_s
    simp only [PQueue.removeId, PQueue.size]
    rw [List.length_eraseP_of_mem he_heap (by simp [he_msg])]
    have hpos : 0 < mq.queue.heap.length := List.length_pos.mpr hne
    omega

/-- The heap invariant: every entry's stored priority value is the
priority value of its message (maintained because `push` computes it and
nothing mutates a message while it sits in the heap). -/
def PQueue.WF (q : PQueue) : Prop :=
  ∀ e ∈ q.heap, e.1 = e.2.2.priority.val

/-- The eviction of `_drop_lowest_priority`, characterized: the evicted
entry is in the heap, no entry has a larger priority value, and among
entries of equal (maximal) priority value it has the least insertion
counter — the oldest; it lands in the failed map with status FAILED and
is erased from the heap. -/
theorem dropLowest_evicts (mq : MessageQueue) (hwf : mq.queue.WF)
    (hne : mq.queue.heap ≠ []) :
    ∃ e ∈ mq.queue.heap,
      (∀ e2 ∈ mq.queue.heap, e2.1 ≤ e.1) ∧
      (∀ e2 ∈ mq.queue.heap, e2.1 = e.1 → e.2.1 ≤ e2.2.1) ∧
      alGet (mq.dropLowest).failed_messages e.2.2.id
        = some { e.2.2 with status := MessageStatus.FAILED } ∧
      (mq.dropLowest).queue.heap
        = mq.queue.heap.eraseP (fun x => x.2.2.id == e.2.2.id) := by
  cases hga : mq.queue.get_all with
  | nil =>
    exfalso
    unfold PQueue.get_all at hga
    exact hne ((sortedHeap_nil_iff mq.queue).mp (List.map_eq_nil_iff.mp hga))
  | cons m0 rest =>
    obtain ⟨l1, l2, heq, hl1, hl2⟩ := pyMaxByVal_split m0 rest
    have hmapeq : mq.queue.sortedHeap.map (fun e => e.2.2)
        = l1 ++ pyMaxByVal m0 rest :: l2 := by
      have : mq.queue.get_all = l1 ++ pyMaxByVal m0 rest :: l2 := by
        rw [hga]; exact heq
      exact this
    obtain ⟨s1, s12, hs_eq, hs1_map, hs12_map⟩ :=
      List.map_eq_append_iff.mp hmapeq
    cases s12 with
    | nil => simp at hs12_map
    | cons e s2 =>
      rw [List.map_cons] at hs12_map
      have he_msg : e.2.2 = pyMaxByVal m0 rest :=
        (List.cons.injEq _ _ _ _ ▸ hs12_map).1
      have hs2_map : s2.map (fun e => e.2.2) = l2 :=
        (List.cons.injEq _ _ _ _ ▸ hs12_map).2
      have he_s : e ∈ mq.queue.sortedHeap := by
        rw [hs_eq]
        exact List.mem_append.mpr (Or.inr (List.mem_cons_self _ _))
      have he_heap : e ∈ mq.queue.heap := (sortedHeap_perm mq.queue).subset he_s
      have hsorted := sortedHeap_sorted mq.queue
      rw [hs_eq] at hsorted
      have hpair := List.pairwise_append.mp hsorted
      have hs2_rel : ∀ b ∈ s2, entryLe e b = true :=
        (List.pairwise_cons.mp hpair.2.1).1
      have hs1_rel : ∀ a ∈ s1, entryLe a e = true := by
        intro a ha
        exact hpair.2.2 a ha e (List.mem_cons_self _ _)
      refine ⟨e, he_heap, ?_, ?_, ?_, ?_⟩
      · intro e2 he2
        have he2_s : e2 ∈ mq.queue.sortedHeap :=
          (sortedHeap_perm mq.queue).symm.subset he2
        rw [hs_eq] at he2_s
        have hwf_e := hwf e he_heap
        have hwf_e2 := hwf e2 he2
        rcases List.mem_append.mp he2_s with hin | hin
        · have : e2.2.2 ∈ l1 := by
            rw [← hs1_map]
            exact List.mem_map_of_mem _ hin
          have := hl1 _ this
          rw [hwf_e, hwf_e2, he_msg]
          omega
        · rcases List.mem_cons.mp hin with hin0 | hin1
          · rw [hin0]
          · have : e2.2.2 ∈ l2 := by
              rw [← hs2_map]
              exact List.mem_map_of_mem _ hin1
            have := hl2 _ this
            rw [hwf_e, hwf_e2, he_msg]
            omega
      · intro e2 he2 hval
        have he2_s : e2 ∈ mq.queue.sortedHeap :=
          (sortedHeap_perm mq.queue).symm.subset he2
        rw [hs_eq] at he2_s
        have hwf_e := hwf e he_heap
        have hwf_e2 := hwf e2 he2
        rcases List.mem_append.mp he2_s with hin | hin
        · exfalso
          have : e2.2.2 ∈ l1 := by
            rw [← hs1_map]
            exact List.mem_map_of_mem _ hin
          have := hl1 _ this
          rw [← he_msg, ← hwf_e, ← hwf_e2] at this
          omega
        · rcases List.mem_cons.mp hin with hin0 | hin1
          · rw [hin0]
          · have hrel := hs2_rel e2 hin1
            unfold entryLe at hrel
            simp only [Bool.or_eq_true, Bool.and_eq_true, decide_eq_true_eq,
              beq_iff_eq] at hrel
            omega
      · unfold MessageQueue.dropLowest
        rw [hga]
        simp only []
        rw [he_msg]
        exact alGet_alPut_self _ _ _
      · unfold MessageQueue.dropLowest
        rw [hga]
        simp only [PQueue.removeId]
        rw [he_msg]

/-- `pop` on a non-empty queue removes exactly one entry. -/
theorem pop_some_size (q : PQueue) (m : QueuedMessage) (q' : PQueue)
    (h : q.pop = (some m, q')) : q'.size + 1 = q.size := by
  unfold PQueue.pop at h
  cases hs : q.sortedHeap with
  | nil =>
    rw [hs] at h
    exact absurd (congrArg Prod.fst h) (by simp)
  | cons e rest =>
    rw [hs] at h
    have h2 : ({ q with heap := q.heap.erase e } : PQueue) = q' :=
      congrArg Prod.snd h
    have he : e ∈ q.heap :=
      (sortedHeap_perm q).subset (hs ▸ List.mem_cons_self e rest)
    have hlen := List.length_erase_of_mem he
    have hpos : 0 < q.heap.length :=
      List.length_pos.mpr (fun h0 => by
        rw [(sortedHeap_nil_iff q).mpr h0] at hs
        exact List.noConfusion hs)
    rw [← h2]
    simp only [PQueue.size]
    rw [hlen]
    omega

/-- One send attempt grows the pending heap by at most one entry (the
re-queue on retry). -/
theorem sendMessage_size_le (mq : MessageQueue) (h : QueuedMessage → Bool)
    (m : QueuedMessage) (now : Nat) :
    (mq.sendMessage h m now).queue.size ≤ mq.queue.size + 1 := by
  simp only [MessageQueue.sendMessage]
  split
  · exact Nat.le_succ _
  · simp only [MessageQueue.handleSendFailure]
    split
    · exact le_of_eq (push_size _ _)
    · exact Nat.le_succ _

/-- The worker batch never grows the pending queue. -/
theorem processBatchAux_size_le (h : QueuedMessage → Bool) (now : Nat) :
    ∀ (fuel : Nat) (mq : MessageQueue),
      (MessageQueue.processBatchAux h now fuel mq).queue.size
        ≤ mq.queue.size := by
  intro fuel
  induction fuel with
  | zero => intro mq; exact le_refl _
  | succ n ih =>
    intro mq
    unfold MessageQueue.processBatchAux
    rcases hp : mq.queue.pop with ⟨om, q'⟩
    cases om with
    | none =>
      exact le_refl _
    | some m =>
      calc (MessageQueue.processBatchAux h now n
              (MessageQueue.sendMessage { mq with queue := q' } h m now)).queue.size
          ≤ (MessageQueue.sendMessage { mq with queue := q' } h m now).queue.size :=
            ih _
        _ ≤ q'.size + 1 := sendMessage_size_le _ h m now
        _ = mq.queue.size := pop_some_size mq.queue m q' hp

/-! ### C3: the queue bound, its violation, and the amended statement -/

/-- The configuration of the counterexample run: `QUEUE_MAX_SIZE=2`. -/
def cfgSmall : Config :=
  { max_queue_size := 2, batch_size := 10, max_retries := 3
    escalation_timeout_default := 300 }

/-- A sequence of durable-queue operations: three enqueues (the third
triggers the overflow eviction of the LOW message into the failed map)
followed by `retry_failed` on the evicted message. -/
def overflowSeq : MessageQueue :=
  let mq := (MessageQueue.init.enqueue cfgSmall "a" none .LOW .MESHTASTIC
    [] "m1" 0).1
  let mq := (mq.enqueue cfgSmall "b" none .HIGH .MESHTASTIC [] "m2" 1).1
  let mq := (mq.enqueue cfgSmall "c" none .CRITICAL .MESHTASTIC [] "m3" 2).1
  (mq.retryFailed "m1").2

/-- C3 counterexample: `retry_failed` pushes back onto the queue with no
bound check, so after the operation sequence `overflowSeq` the pending
queue holds 3 messages while `max_queue_size = 2` — the invariant
`queue.size() ≤ max_queue_size` does not hold over all durable-queue
operations. -/
theorem queue_bound_cex :
    cfgSmall.max_queue_size < overflowSeq.queue.size ∧
    overflowSeq.queue.size = 3 ∧ cfgSmall.max_queue_size = 2 :=
  ⟨by decide, by decide, by decide⟩

/-- C3 amended: under `enqueue`, `enqueue_message`, and send-worker steps
the pending queue size never exceeds `max_queue_size` (for a positive
bound), and when an enqueue finds the queue full it evicts the first
lowest-priority (highest priority value) message — the oldest among
equal-priority candidates — into the failed map with status FAILED; but
`retry_failed` / `retry_all_failed` push with no bound check and can
exceed the bound (see the counterexample). -/
theorem queue_bound_spec (cfg : Config) (mq : MessageQueue)
    (m' : QueuedMessage) (handler : QueuedMessage → Bool) (text : String)
    (dest : Option String) (pri : AlertPriority) (proto : Protocol)
    (meta : List (String × JVal)) (mid : String) (now : Nat)
    (hmax : 1 ≤ cfg.max_queue_size)
    (hsz : mq.queue.size ≤ cfg.max_queue_size) :
    (mq.enqueue cfg text dest pri proto meta mid now).1.queue.size
      ≤ cfg.max_queue_size ∧
    (mq.enqueue_message cfg m').1.queue.size ≤ cfg.max_queue_size ∧
    (mq.processBatch cfg handler now).queue.size ≤ cfg.max_queue_size ∧
    (mq.queue.WF → cfg.max_queue_size ≤ mq.queue.size →
      ∃ e ∈ mq.queue.heap,
        (∀ e2 ∈ mq.queue.heap, e2.1 ≤ e.1) ∧
        (∀ e2 ∈ mq.queue.heap, e2.1 = e.1 → e.2.1 ≤ e2.2.1) ∧
        alGet (mq.enqueue cfg text dest pri proto meta mid
          now).1.failed_messages e.2.2.id
          = some { e.2.2 with status := MessageStatus.FAILED }) := by
  have hne_of_full : cfg.max_queue_size ≤ mq.queue.size → mq.queue.heap ≠ [] := by
    intro hfull h0
    have : mq.queue.size = 0 := by simp [PQueue.size, h0]
    omega
  refine ⟨?_, ?_, ?_, ?_⟩
  · unfold MessageQueue.enqueue
    by_cases hfull : cfg.max_queue_size ≤ mq.queue.size
    · rw [if_pos hfull]
      simp only [push_size]
      have := dropLowest_size mq (hne_of_full hfull)
      omega
    · rw [if_neg hfull]
      simp only [push_size]
      omega
  · unfold MessageQueue.enqueue_message
    by_cases hfull : cfg.max_queue_size ≤ mq.queue.size
    · rw [if_pos hfull]
      simp only [push_size]
      have := dropLowest_size mq (hne_of_full hfull)
      omega
    · rw [if_neg hfull]
      simp only [push_size]
      omega
  · exact le_trans (processBatchAux_size_le handler now cfg.batch_size mq) hsz
  · intro hwf hfull
    obtain ⟨e, he, h1, h2, h3, _⟩ := dropLowest_evicts mq hwf (hne_of_full hfull)
    refine ⟨e, he, h1, h2, ?_⟩
    unfold MessageQueue.enqueue
    rw [if_pos hfull]
    exact h3

/-- The queue after the first two enqueues of the counterexample run:
exactly full at `max_queue_size = 2`. -/
def mqTwo : MessageQueue :=
  ((MessageQueue.init.enqueue cfgSmall "a" none .LOW .MESHTASTIC
    [] "m1" 0).1.enqueue cfgSmall "b" none .HIGH .MESHTASTIC [] "m2" 1).1

/-- Witness for `queue_bound_spec`: the full queue `mqTwo` receiving a
third enqueue — the bound holds and the LOW message is evicted into the
failed map. -/
theorem queue_bound_spec_witness :
    (mqTwo.enqueue cfgSmall "c" none .CRITICAL .MESHTASTIC [] "m3"
        2).1.queue.size ≤ cfgSmall.max_queue_size ∧
    ∃ e ∈ mqTwo.queue.heap,
      alGet (mqTwo.enqueue cfgSmall "c" none .CRITICAL .MESHTASTIC [] "m3"
          2).1.failed_messages e.2.2.id
        = some { e.2.2 with status := MessageStatus.FAILED } := by
  have h := queue_bound_spec cfgSmall mqTwo
    { id := "x", text := "", destination := none, priority := .INFO
      protocol := .MESHTASTIC, status := .PENDING, created_at := 0
      sent_at := none, delivered_at := none, retry_count := 0
      max_retries := 3, metadata := [] }
    alwaysFail "c" none .CRITICAL .MESHTASTIC [] "m3" 2
    (by decide) (by decide)
  refine ⟨h.1, ?_⟩
  obtain ⟨e, he, _, _, h4⟩ := h.2.2.2 (by unfold PQueue.WF; decide) (by decide)
  exact ⟨e, he, h4⟩

/-! ### C4: persistence round-trip over enqueue sequences -/

theorem priority_ofName_pname (p : AlertPriority) :
    AlertPriority.ofName p.pname = some p := by
  cases p <;> rfl

theorem protocol_ofName_pname (p : Protocol) :
    Protocol.ofName p.pname = some p := by
  cases p <;> rfl

theorem status_ofName_pname (s : MessageStatus) :
    MessageStatus.ofName s.pname = some s := by
  cases s <;> rfl

/-- Serialization round-trip for a message that has never been through a
send attempt (`sent_at`/`delivered_at` are `None`): `_dict_to_message`
inverts `to_dict` exactly. -/
theorem dict_roundtrip (m : QueuedMessage) (h1 : m.sent_at = none)
    (h2 : m.delivered_at = none) : dictToMessage m.to_dict = some m := by
  rcases m with ⟨mid, mtext, mdest, mpri, mproto, mst, mca, msa, mda, mrc, mmr, mmd⟩
  simp only at h1 h2
  subst h1
  subst h2
  unfold QueuedMessage.to_dict dictToMessage
  rw [priority_ofName_pname, protocol_ofName_pname,
    status_ofName_pname]

/-- One enqueue operation, carrying its nondeterministic inputs. -/
structure EnqueueOp where
  text : String
  dest : Option String
  pri : AlertPriority
  proto : Protocol
  meta : List (String × JVal)
  mid : String
  now : Nat

/-- A sequence of `enqueue` calls applied in order. -/
def applyEnqueues (cfg : Config) (ops : List EnqueueOp)
    (mq : MessageQueue) : MessageQueue :=
  ops.foldl (fun acc op =>
    (acc.enqueue cfg op.text op.dest op.pri op.proto op.meta op.mid
      op.now).1) mq

/-- The invariant of a queue built by enqueues alone: no message has been
through a send attempt, failed-map keys are the message ids and are
unique, and heap entries carry their message's priority value. -/
def EnqInv (mq : MessageQueue) : Prop :=
  (∀ e ∈ mq.queue.heap, e.2.2.sent_at = none ∧ e.2.2.delivered_at = none) ∧
  (∀ kv ∈ mq.failed_messages,
    kv.2.sent_at = none ∧ kv.2.delivered_at = none) ∧
  (∀ kv ∈ mq.failed_messages, kv.1 = kv.2.id) ∧
  (alKeys mq.failed_messages).Nodup ∧
  mq.queue.WF

theorem mem_alPut {α : Type} (l : List (String × α)) (k : String) (v : α) :
    ∀ kv ∈ alPut l k v, kv ∈ l ∨ kv = (k, v) := by
  intro kv hkv
  unfold alPut at hkv
  by_cases hany : l.any (fun kv => kv.1 == k)
  · rw [if_pos hany] at hkv
    obtain ⟨kv0, hkv0, hf⟩ := List.mem_map.mp hkv
    by_cases hk : (kv0.1 == k) = true
    · right
      rw [if_pos hk] at hf
      exact hf.symm
    · left
      rw [if_neg hk] at hf
      exact hf ▸ hkv0
  · rw [if_neg hany] at hkv
    rcases List.mem_append.mp hkv with h | h
    · exact Or.inl h
    · exact Or.inr (List.mem_singleton.mp h)

theorem dropLowest_EnqInv (mq : MessageQueue) (h : EnqInv mq) :
    EnqInv mq.dropLowest := by
  obtain ⟨hq, hf, hk, hn, hwf⟩ := h
  unfold MessageQueue.dropLowest
  cases hga : mq.queue.get_all with
  | nil => exact ⟨hq, hf, hk, hn, hwf⟩
  | cons m0 rest =>
    have hlow_mem : pyMaxByVal m0 rest ∈ mq.queue.get_all := by
      rw [hga]; exact pyMaxByVal_mem m0 rest
    unfold PQueue.get_all at hlow_mem
    obtain ⟨e0, he0s, he0m⟩ := List.mem_map.mp hlow_mem
    have he0 : e0 ∈ mq.queue.heap := (sortedHeap_perm mq.queue).subset he0s
    have hflags := hq e0 he0
    rw [he0m] at hflags
    refine ⟨?_, ?_, ?_, ?_, ?_⟩
    · intro e he
      exact hq e (List.mem_of_mem_eraseP he)
    · intro kv hkv
      rcases mem_alPut _ _ _ kv hkv with hin | heq
      · exact hf kv hin
      · rw [heq]
        exact hflags
    · intro kv hkv
      rcases mem_alPut _ _ _ kv hkv with hin | heq
      · exact hk kv hin
      · rw [heq]
    · exact nodup_alKeys_alPut _ _ _ hn
    · intro e he
      exact hwf e (List.mem_of_mem_eraseP he)

theorem enqueue_EnqInv (cfg : Config) (mq : MessageQueue) (text : String)
    (dest : Option String) (pri : AlertPriority) (proto : Protocol)
    (meta : List (String × JVal)) (mid : String) (now : Nat)
    (h : EnqInv mq) :
    EnqInv (mq.enqueue cfg text dest pri proto meta mid now).1 := by
  unfold MessageQueue.enqueue
  have hbase : EnqInv (if cfg.max_queue_size ≤ mq.queue.size
      then mq.dropLowest else mq) := by
    by_cases hfull : cfg.max_queue_size ≤ mq.queue.size
    · rw [if_pos hfull]; exact dropLowest_EnqInv mq h
    · rw [if_neg hfull]; exact h
  obtain ⟨hq, hf, hk, hn, hwf⟩ := hbase
  refine ⟨?_, hf, hk, hn, ?_⟩
  · intro e he
    rcases List.mem_append.mp he with hin | hin
    · exact hq e hin
    · rw [List.mem_singleton.mp hin]
      exact ⟨rfl, rfl⟩
  · intro e he
    rcases List.mem_append.mp he with hin | hin
    · exact hwf e hin
    · rw [List.mem_singleton.mp hin]

theorem applyEnqueues_EnqInv (cfg : Config) (ops : List EnqueueOp) :
    ∀ mq, EnqInv mq → EnqInv (applyEnqueues cfg ops mq) := by
  induction ops with
  | nil => intro mq h; exact h
  | cons op t ih =>
    intro mq h
    exact ih _ (enqueue_EnqInv cfg mq op.text op.dest op.pri op.proto
      op.meta op.mid op.now h)

theorem init_EnqInv : EnqInv MessageQueue.init := by
  refine ⟨?_, ?_, ?_, List.nodup_nil, ?_⟩ <;> intro x hx <;> cases hx

/-- Pushing a list of messages in order. -/
def pushList (q : PQueue) (ms : List QueuedMessage) : PQueue :=
  ms.foldl PQueue.push q

/-- The heap entries produced by restoring `ms` starting at counter `c`. -/
def buildEntries (c : Nat) : List QueuedMessage → List QEntry
  | [] => []
  | m :: t => (m.priority.val, c, m) :: buildEntries (c + 1) t

theorem pushList_heap (ms : List QueuedMessage) :
    ∀ q : PQueue, (pushList q ms).heap = q.heap ++ buildEntries q.counter ms
      ∧ (pushList q ms).counter = q.counter + ms.length := by
  induction ms with
  | nil => intro q; simp [pushList, buildEntries]
  | cons m t ih =>
    intro q
    have := ih (q.push m)
    unfold pushList at this ⊢
    rw [List.foldl_cons]
    refine ⟨?_, ?_⟩
    · rw [this.1]
      simp [PQueue.push, buildEntries]
    · rw [this.2]
      simp [PQueue.push]
      omega

theorem buildEntries_mem (ms : List QueuedMessage) :
    ∀ (c : Nat), ∀ e ∈ buildEntries c ms,
      c ≤ e.2.1 ∧ ∃ x ∈ ms, e.1 = x.priority.val ∧ e.2.2 = x := by
  induction ms with
  | nil => intro c e he; cases he
  | cons m t ih =>
    intro c e he
    unfold buildEntries at he
    rcases List.mem_cons.mp he with h0 | h1
    · rw [h0]
      exact ⟨le_refl c, m, List.mem_cons_self _ _, rfl, rfl⟩
    · obtain ⟨hc, x, hx, hval, hmsg⟩ := ih (c + 1) e h1
      exact ⟨le_trans (Nat.le_succ c) hc, x, List.mem_cons_of_mem m hx,
        hval, hmsg⟩

theorem buildEntries_sorted (ms : List QueuedMessage)
    (h : ms.Pairwise (fun a b => a.priority.val ≤ b.priority.val)) :
    ∀ c, (buildEntries c ms).Sorted (fun a b => entryLe a b = true) := by
  induction ms with
  | nil => intro c; exact List.sorted_nil
  | cons m t ih =>
    intro c
    rw [List.pairwise_cons] at h
    unfold buildEntries
    rw [List.Sorted, List.pairwise_cons]
    refine ⟨?_, ih h.2 (c + 1)⟩
    intro e he
    obtain ⟨hc, x, hx, hval, _⟩ := buildEntries_mem t (c + 1) e he
    have hle := h.1 x hx
    unfold entryLe
    simp only [Bool.or_eq_true, Bool.and_eq_true, decide_eq_true_eq,
      beq_iff_eq]
    omega

theorem buildEntries_map (ms : List QueuedMessage) :
    ∀ c, (buildEntries c ms).map (fun e => e.2.2) = ms := by
  induction ms with
  | nil => intro c; rfl
  | cons m t ih =>
    intro c
    unfold buildEntries
    rw [List.map_cons, ih (c + 1)]

/-- Restoring a priority-sorted message list into a fresh queue
reproduces it exactly: the sorted snapshot of the restored queue is the
restored list. -/
theorem get_all_pushList (ms : List QueuedMessage)
    (h : ms.Pairwise (fun a b => a.priority.val ≤ b.priority.val)) :
    (pushList PQueue.init ms).get_all = ms := by
  have hheap := (pushList_heap ms PQueue.init).1
  unfold PQueue.get_all PQueue.sortedHeap
  rw [hheap]
  simp only [PQueue.init, List.nil_append]
  rw [List.Sorted.insertionSort_eq (buildEntries_sorted ms h 0)]
  exact buildEntries_map ms 0

/-- The sorted snapshot of a well-formed queue lists priority values in
non-decreasing order. -/
theorem get_all_pairwise (q : PQueue) (hwf : q.WF) :
    q.get_all.Pairwise (fun a b => a.priority.val ≤ b.priority.val) := by
  unfold PQueue.get_all
  rw [List.pairwise_map]
  have hsorted := sortedHeap_sorted q
  refine hsorted.imp_of_mem ?_
  intro a b ha hb hab
  have hwa := hwf a ((sortedHeap_perm q).subset ha)
  have hwb := hwf b ((sortedHeap_perm q).subset hb)
  unfold entryLe at hab
  simp only [Bool.or_eq_true, Bool.and_eq_true, decide_eq_true_eq,
    beq_iff_eq] at hab
  omega

/-- Loading the pending section pushes the decoded messages in file
order. -/
theorem load_pending_eq (ms : List QueuedMessage)
    (hng : ∀ m ∈ ms, m.sent_at = none ∧ m.delivered_at = none) :
    ∀ mq0 : MessageQueue,
      (ms.map QueuedMessage.to_dict).foldl
        (fun acc md =>
          match dictToMessage md with
          | some m => { acc with queue := acc.queue.push m }
          | none => acc) mq0
      = { mq0 with queue := pushList mq0.queue ms } := by
  induction ms with
  | nil => intro mq0; rfl
  | cons m t ih =>
    intro mq0
    rw [List.map_cons, List.foldl_cons]
    have hrt := dict_roundtrip m (hng m (List.mem_cons_self _ _)).1
      (hng m (List.mem_cons_self _ _)).2
    rw [hrt]
    rw [ih (fun x hx => hng x (List.mem_cons_of_mem m hx))]
    rfl

/-- Loading the failed section re-inserts the decoded messages keyed by
id in file order. -/
theorem load_failed_eq (l : List (String × QueuedMessage))
    (hng : ∀ kv ∈ l, kv.2.sent_at = none ∧ kv.2.delivered_at = none) :
    ∀ mq0 : MessageQueue,
      (l.map (fun kv => kv.2.to_dict)).foldl
        (fun acc md =>
          match dictToMessage md with
          | some m =>
            { acc with failed_messages := alPut acc.failed_messages m.id m }
          | none => acc) mq0
      = { mq0 with failed_messages :=
            l.foldl (fun a kv => alPut a kv.2.id kv.2) mq0.failed_messages } := by
  induction l with
  | nil => intro mq0; rfl
  | cons kv t ih =>
    intro mq0
    rw [List.map_cons, List.foldl_cons]
    have hrt := dict_roundtrip kv.2 (hng kv (List.mem_cons_self _ _)).1
      (hng kv (List.mem_cons_self _ _)).2
    rw [hrt]
    rw [ih (fun x hx => hng x (List.mem_cons_of_mem kv hx))]
    rfl

/-- Re-inserting an association list with unique id-keys rebuilds it. -/
theorem foldl_alPut_rebuild :
    ∀ (l acc : List (String × QueuedMessage)),
      (alKeys (acc ++ l)).Nodup → (∀ kv ∈ l, kv.1 = kv.2.id) →
      l.foldl (fun a kv => alPut a kv.2.id kv.2) acc = acc ++ l := by
  intro l
  induction l with
  | nil => intro acc _ _; simp
  | cons kv t ih =>
    intro acc hnodup hkeys
    rw [List.foldl_cons]
    have hkid : kv.2.id = kv.1 := (hkeys kv (List.mem_cons_self _ _)).symm
    have hnotin : ¬ acc.any (fun x => x.1 == kv.2.id) := by
      intro hany
      obtain ⟨x, hx, hpx⟩ := List.any_eq_true.mp hany
      have hxk : x.1 = kv.1 := by rw [eq_of_beq hpx, hkid]
      unfold alKeys at hnodup
      rw [List.map_append] at hnodup
      have hsplit := List.nodup_append.mp hnodup
      exact hsplit.2.2 (List.mem_map_of_mem _ hx)
        (by rw [hxk]; exact List.mem_map_of_mem _ (List.mem_cons_self _ _))
    have hput : alPut acc kv.2.id kv.2 = acc ++ [kv] := by
      unfold alPut
      rw [if_neg hnotin, hkid]
    rw [hput]
    have hassoc : (acc ++ [kv]) ++ t = acc ++ kv :: t := by
      rw [List.append_assoc]
      rfl
    rw [ih (acc ++ [kv]) (by rw [hassoc]; exact hnodup)
      (fun x hx => hkeys x (List.mem_cons_of_mem kv hx))]
    rw [hassoc]

/-- C4: for any sequence of enqueues from a fresh queue, persisting on
`stop()` and loading into a fresh instance restores the pending snapshot
and the failed map exactly (same messages, same field values, original
priorities and order). -/
theorem persistence_roundtrip (cfg : Config) (ops : List EnqueueOp)
    (tstamp : Nat) :
    (MessageQueue.init.loadPersisted
        ((applyEnqueues cfg ops MessageQueue.init).persistData
          tstamp)).queue.get_all
      = (applyEnqueues cfg ops MessageQueue.init).queue.get_all ∧
    (MessageQueue.init.loadPersisted
        ((applyEnqueues cfg ops MessageQueue.init).persistData
          tstamp)).failed_messages
      = (applyEnqueues cfg ops MessageQueue.init).failed_messages := by
  have hinv := applyEnqueues_EnqInv cfg ops MessageQueue.init init_EnqInv
  obtain ⟨hq, hfl, hk, hn, hwf⟩ := hinv
  have hget_flags : ∀ m ∈ (applyEnqueues cfg ops
      MessageQueue.init).queue.get_all,
      m.sent_at = none ∧ m.delivered_at = none := by
    intro m hm
    unfold PQueue.get_all at hm
    obtain ⟨e, hes, hem⟩ := List.mem_map.mp hm
    have := hq e ((sortedHeap_perm _).subset hes)
    rw [hem] at this
    exact this
  unfold MessageQueue.loadPersisted MessageQueue.persistData
  rw [load_pending_eq _ hget_flags MessageQueue.init]
  rw [load_failed_eq _ hfl]
  have hrebuild := foldl_alPut_rebuild
    (applyEnqueues cfg ops MessageQueue.init).failed_messages []
    (by rw [List.nil_append]; exact hn) hk
  rw [List.nil_append] at hrebuild
  constructor
  · exact get_all_pushList _ (get_all_pairwise _ hwf)
  · exact hrebuild

/-! ### C8: persistence trigger and write discipline -/

/-- C8 counterexample: the persistence write of `_persist_messages` is a
single direct overwrite of `queue.json` — it is not the
temp-file/fsync/rename protocol the claim describes, so an interrupted
write can leave a partial `queue.json`. -/
theorem persist_not_atomic_cex :
    MessageQueue.init.persistFileOps 0
      = [FileOp.write "queue.json" (MessageQueue.init.persistData 0)] ∧
    ¬ AtomicWritePattern (MessageQueue.init.persistFileOps 0) := by
  refine ⟨rfl, ?_⟩
  rintro ⟨tmp, d, h⟩
  have hlen : (MessageQueue.init.persistFileOps 0).length = 1 := rfl
  rw [h] at hlen
  simp at hlen

/-- C8 amended: the queue serializes its pending snapshot and failed map
(with enum fields as names) to `queue.json` only on `stop()`; the write
is one direct in-place overwrite — no temp file, no fsync, no rename —
and the worker tick performs no persistence at all (there is no
every-N-modifications write). -/
theorem persist_on_stop_spec (mq : MessageQueue) (now : Nat)
    (cfg : Config) (handler : QueuedMessage → Bool) (m : QueuedMessage) :
    (mq.stopQueue now).2
      = [FileOp.write "queue.json" (mq.persistData now)] ∧
    (mq.persistData now).pending
      = mq.queue.get_all.map QueuedMessage.to_dict ∧
    (mq.persistData now).failed
      = mq.failed_messages.map (fun kv => kv.2.to_dict) ∧
    (m.to_dict.priority = m.priority.pname ∧
     m.to_dict.protocol = m.protocol.pname ∧
     m.to_dict.status = m.status.pname) ∧
    (mq.processTick cfg handler now).2 = [] := by
  exact ⟨rfl, rfl, rfl, ⟨rfl, rfl, rfl⟩, rfl⟩

/-! ### C9: node-catalog update rules -/

/-- A known node whose `snr` has a stored (non-null) value. -/
def nodeKnown : MeshNode := { MeshNode.mk0 "n1" with snr := some 5 }

/-- A packet whose `snr` key is present with an explicit null value and
which carries nothing else. -/
def packetNullSnr : NodePacket :=
  { user := none, position := none, deviceMetrics := none
    snr := .pnull, rssi := .absent, hopsAway := .absent }

/-- C9 counterexample: `_update_node_from_dict` uses
`data.get("snr", node.snr)`, which protects only against an *absent*
key; a key present with value `None` is returned as-is and overwrites
the stored value.  Updating the node `n1` (stored snr = 5) with a packet
carrying `"snr": null` resets the stored snr to null. -/
theorem node_null_overwrite_cex :
    (alGet (updateNodeFromDict [("n1", nodeKnown)] "n1" packetNullSnr 10)
        "n1").map MeshNode.snr = some none ∧
    (alGet [("n1", nodeKnown)] "n1").map MeshNode.snr = some (some 5) := by
  constructor
  · rfl
  · rfl

/-- C9 amended: node-catalog updates are per-field, and a field *absent*
from the packet never resets the stored value, while `last_heard` is set
to the current time by every update; but a field *present with an
explicit null* does overwrite a stored non-null value in
`_update_node_from_dict` (the counterexample); only
`_update_node_signal` skips null snr/rssi arguments. -/
theorem node_update_spec (nodes : List (String × MeshNode)) (nid : String)
    (data : NodePacket) (now : Nat) (n0 : MeshNode)
    (h0 : alGet nodes nid = some n0) :
    ((data.snr = .absent →
        (alGet (updateNodeFromDict nodes nid data now) nid).map MeshNode.snr
          = some n0.snr) ∧
     (data.rssi = .absent →
        (alGet (updateNodeFromDict nodes nid data now) nid).map MeshNode.rssi
          = some n0.rssi) ∧
     (data.user = none →
        (alGet (updateNodeFromDict nodes nid data now) nid).map
            MeshNode.long_name = some n0.long_name) ∧
     (∀ u, data.user = some u → u.longName = .absent →
        (alGet (updateNodeFromDict nodes nid data now) nid).map
            MeshNode.long_name = some n0.long_name) ∧
     (data.position = none →
        (alGet (updateNodeFromDict nodes nid data now) nid).map
            MeshNode.latitude = some n0.latitude) ∧
     (data.deviceMetrics = none →
        (alGet (updateNodeFromDict nodes nid data now) nid).map
            MeshNode.battery_level = some n0.battery_level)) ∧
    (alGet (updateNodeFromDict nodes nid data now) nid).map
        MeshNode.last_heard = some (some now) ∧
    (data.snr = .pnull →
        (alGet (updateNodeFromDict nodes nid data now) nid).map MeshNode.snr
          = some none) ∧
    ((alGet (updateNodeSignal nodes nid none none now) nid).map MeshNode.snr
        = some n0.snr ∧
     (alGet (updateNodeSignal nodes nid none none now) nid).map MeshNode.rssi
        = some n0.rssi ∧
     (∀ v w, (alGet (updateNodeSignal nodes nid (some v) (some w) now)
          nid).map MeshNode.snr = some (some v) ∧
        (alGet (updateNodeSignal nodes nid (some v) (some w) now) nid).map
          MeshNode.rssi = some (some w)) ∧
     (alGet (updateNodeSignal nodes nid none none now) nid).map
        MeshNode.last_heard = some (some now)) := by
  unfold updateNodeFromDict updateNodeSignal
  rw [h0]
  simp only [Option.getD_some]
  refine ⟨⟨?_, ?_, ?_, ?_, ?_, ?_⟩, ?_, ?_, ?_, ?_, ?_, ?_⟩
  · intro hs
    rw [hs, alGet_alPut_self]
    rcases data.user with _ | u <;> rcases data.position with _ | p <;>
      rcases data.deviceMetrics with _ | dm <;> rfl
  · intro hs
    rw [hs, alGet_alPut_self]
    rcases data.user with _ | u <;> rcases data.position with _ | p <;>
      rcases data.deviceMetrics with _ | dm <;> rfl
  · intro hu
    rw [hu, alGet_alPut_self]
    rcases data.position with _ | p <;> rcases data.deviceMetrics with _ | dm
      <;> rfl
  · intro u hu hln
    rw [hu, alGet_alPut_self]
    rcases u with ⟨ln, sn, hm, lic, rl⟩
    simp only at hln
    subst hln
    rcases data.position with _ | p <;> rcases data.deviceMetrics with _ | dm
      <;> rfl
  · intro hp
    rw [hp, alGet_alPut_self]
    rcases data.user with _ | u <;> rcases data.deviceMetrics with _ | dm
      <;> rfl
  · intro hdm
    rw [hdm, alGet_alPut_self]
    rcases data.user with _ | u <;> rcases data.position with _ | p <;> rfl
  · rw [alGet_alPut_self]
    rcases data.user with _ | u <;> rcases data.position with _ | p <;>
      rcases data.deviceMetrics with _ | dm <;> rfl
  · intro hs
    rw [hs, alGet_alPut_self]
    rcases data.user with _ | u <;> rcases data.position with _ | p <;>
      rcases data.deviceMetrics with _ | dm <;> rfl
  · rw [alGet_alPut_self]
    rfl
  · rw [alGet_alPut_self]
    rfl
  · intro v w
    constructor <;> · rw [alGet_alPut_self]; rfl
  · rw [alGet_alPut_self]
    rfl

/-- Witness for `node_update_spec` at the concrete node `nodeKnown` and
an all-absent packet: every field survives and `last_heard` is
restamped. -/
theorem node_update_spec_witness :
    (alGet (updateNodeFromDict [("n1", nodeKnown)] "n1"
        { user := none, position := none, deviceMetrics := none
          snr := .absent, rssi := .absent, hopsAway := .absent } 7)
        "n1").map MeshNode.snr = some (some 5) ∧
    (alGet (updateNodeFromDict [("n1", nodeKnown)] "n1"
        { user := none, position := none, deviceMetrics := none
          snr := .absent, rssi := .absent, hopsAway := .absent } 7)
        "n1").map MeshNode.last_heard = some (some 7) := by
  have h := node_update_spec [("n1", nodeKnown)] "n1"
    { user := none, position := none, deviceMetrics := none
      snr := .absent, rssi := .absent, hopsAway := .absent } 7 nodeKnown rfl
  exact ⟨h.1.1 rfl, h.2.1⟩

/-! ### C10: acknowledging an alert leaves the outbound queue untouched -/

/-- C10: `acknowledge_alert` only moves the alert between the manager's
alert maps; the owned message queue (pending heap, failed and sent maps,
statistics), the routing rules, and the failover flag are all unchanged,
so every still-pending queued message — including an already-enqueued
escalation message — survives the acknowledgement. -/
theorem acknowledge_frame (mgr : AlertManager) (aid ackBy : String)
    (now : Nat) :
    ((mgr.acknowledgeAlert aid ackBy now).2.message_queue
        = mgr.message_queue) ∧
    ((mgr.acknowledgeAlert aid ackBy now).2.message_queue.queue.heap
        = mgr.message_queue.queue.heap) ∧
    ((mgr.acknowledgeAlert aid ackBy now).2.message_queue.failed_messages
        = mgr.message_queue.failed_messages) ∧
    ((mgr.acknowledgeAlert aid ackBy now).2.routing_rules
        = mgr.routing_rules) ∧
    ((mgr.acknowledgeAlert aid ackBy now).2.failover_active
        = mgr.failover_active) := by
  unfold AlertManager.acknowledgeAlert
  rcases alGet mgr.active_alerts aid with _ | a
  · rcases alGet mgr.escalated_alerts aid with _ | a
    · exact ⟨rfl, rfl, rfl, rfl, rfl⟩
    · exact ⟨rfl, rfl, rfl, rfl, rfl⟩
  · exact ⟨rfl, rfl, rfl, rfl, rfl⟩

/-! ### The alert-manager transition system (for C5 and C6)

A state is the manager paired with the ghost trace of escalation events
(the alert ids for which `_escalate_alert` has fired — the refinement of
`stats["escalated"] += 1`).  Steps are the operations the running system
performs: `send_alert` (with a fresh uuid), `acknowledge_alert`, one
escalation-loop tick (`_check_escalations`), the ISP monitor toggling
`failover_active` (its callback then sends ordinary alerts, covered by
the send step), the queue worker, the retry endpoints, and
`update_routing_rule`. -/

/-- `AlertManager.update_routing_rule`: update the first rule matching
the priority in place. -/
def updateRules : List RoutingRule → AlertPriority → Option Protocol →
    Option Nat → Option Bool → List RoutingRule
  | [], _, _, _, _ => []
  | r :: t, p, pr, et, ra =>
    if r.priority == p then
      { r with protocol := pr.getD r.protocol
               escalation_timeout := et.getD r.escalation_timeout
               require_ack := ra.getD r.require_ack } :: t
    else r :: updateRules t p pr et ra

/-- A manager state with its escalation-event history. -/
abbrev MState := AlertManager × List String

/-- One step of the alert manager. -/
inductive MStep (cfg : Config) : MState → MState → Prop where
  | send (m : AlertManager) (tr : List String) (title message : String)
      (pri : AlertPriority) (src cat : String) (tns : List String)
      (meta : List (String × JVal)) (aid mid : String) (now : Nat)
      (hfresh : aid ∉ alKeys m.active_alerts ∧
        aid ∉ alKeys m.acknowledged_alerts ∧
        aid ∉ alKeys m.escalated_alerts) :
      MStep cfg (m, tr)
        ((AlertManager.sendAlert cfg m title message pri src cat tns meta
          aid mid now).1, tr)
  | ack (m : AlertManager) (tr : List String) (aid ackBy : String)
      (now : Nat) :
      MStep cfg (m, tr) ((m.acknowledgeAlert aid ackBy now).2, tr)
  | check (m : AlertManager) (tr : List String) (now : Nat)
      (mids : String → String) :
      MStep cfg (m, tr)
        (m.checkEscalations cfg now mids, tr ++ m.toEscalate cfg now)
  | failover (m : AlertManager) (tr : List String) (b : Bool) :
      MStep cfg (m, tr) ({ m with failover_active := b }, tr)
  | worker (m : AlertManager) (tr : List String)
      (handler : QueuedMessage → Bool) (now : Nat) :
      MStep cfg (m, tr)
        ({ m with message_queue :=
            m.message_queue.processBatch cfg handler now }, tr)
  | retryOne (m : AlertManager) (tr : List String) (mid : String) :
      MStep cfg (m, tr)
        ({ m with message_queue := (m.message_queue.retryFailed mid).2 }, tr)
  | retryAll (m : AlertManager) (tr : List String) :
      MStep cfg (m, tr)
        ({ m with message_queue := (m.message_queue.retryAllFailed).2 }, tr)
  | updateRule (m : AlertManager) (tr : List String) (p : AlertPriority)
      (pr : Option Protocol) (et : Option Nat) (ra : Option Bool) :
      MStep cfg (m, tr)
        ({ m with routing_rules := updateRules m.routing_rules p pr et ra },
         tr)

/-- States reachable from a freshly constructed manager. -/
def MReachable (cfg : Config) (p : MState) : Prop :=
  Relation.ReflTransGen (MStep cfg) (AlertManager.init, []) p

/-- The alert-map invariant: unique keys, the three maps pairwise
disjoint, active alerts unacknowledged and unescalated, acknowledged
alerts flagged acknowledged, escalated alerts flagged escalated. -/
def MapsInv (m : AlertManager) : Prop :=
  (alKeys m.active_alerts).Nodup ∧
  (alKeys m.acknowledged_alerts).Nodup ∧
  (alKeys m.escalated_alerts).Nodup ∧
  (∀ aid, aid ∈ alKeys m.active_alerts →
    aid ∉ alKeys m.acknowledged_alerts ∧ aid ∉ alKeys m.escalated_alerts) ∧
  (∀ aid, aid ∈ alKeys m.acknowledged_alerts →
    aid ∉ alKeys m.escalated_alerts) ∧
  (∀ kv ∈ m.active_alerts, kv.2.acknowledged = false ∧
    kv.2.escalated = false) ∧
  (∀ kv ∈ m.acknowledged_alerts, kv.2.acknowledged = true) ∧
  (∀ kv ∈ m.escalated_alerts, kv.2.escalated = true)

/-- The event-trace invariant: each alert escalates at most once, and an
escalated alert lives in the escalated or acknowledged map forever. -/
def TraceInv (p : MState) : Prop :=
  p.2.Nodup ∧
  (∀ aid ∈ p.2, aid ∈ alKeys p.1.escalated_alerts ∨
    aid ∈ alKeys p.1.acknowledged_alerts)

/-- The combined inductive invariant of the transition system. -/
def MInv (p : MState) : Prop := MapsInv p.1 ∧ TraceInv p

/-! ### More association-list facts -/

theorem alGet_isSome_of_key_mem {α : Type} (l : List (String × α))
    (k : String) (h : k ∈ alKeys l) : alGet l k ≠ none := by
  obtain ⟨kv, hkv, hfst⟩ := List.mem_map.mp h
  unfold alGet
  intro hnone
  rw [Option.map_eq_none'] at hnone
  rw [List.find?_eq_none] at hnone
  exact hnone kv hkv (by simp [hfst])

theorem key_mem_iff_alGet {α : Type} (l : List (String × α)) (k : String) :
    k ∈ alKeys l ↔ alGet l k ≠ none := by
  constructor
  · exact alGet_isSome_of_key_mem l k
  · intro h
    rcases hf : alGet l k with _ | v
    · exact absurd hf h
    · have := alGet_mem l k v hf
      exact List.mem_map_of_mem _ this

theorem alKeys_alDrop_sublist {α : Type} (l : List (String × α))
    (k : String) : (alKeys (alDrop l k)).Sublist (alKeys l) :=
  (List.eraseP_sublist l).map Prod.fst

theorem key_not_mem_alDrop {α : Type} (l : List (String × α)) (k : String)
    (h : (alKeys l).Nodup) : k ∉ alKeys (alDrop l k) := by
  intro hmem
  exact alGet_isSome_of_key_mem _ _ hmem (alGet_alDrop_self l k h)

theorem mem_keys_alPut {α : Type} (l : List (String × α)) (k k' : String)
    (v : α) (h : k' ∈ alKeys (alPut l k v)) : k' ∈ alKeys l ∨ k' = k := by
  by_cases hany : l.any (fun kv => kv.1 == k)
  · rw [alKeys_alPut_of_mem l k v hany] at h
    exact Or.inl h
  · rw [alKeys_alPut_of_not_mem l k v hany] at h
    rcases List.mem_append.mp h with h1 | h1
    · exact Or.inl h1
    · exact Or.inr (List.mem_singleton.mp h1)

theorem key_mem_alPut_self {α : Type} (l : List (String × α)) (k : String)
    (v : α) : k ∈ alKeys (alPut l k v) := by
  rw [key_mem_iff_alGet, alGet_alPut_self]
  exact Option.noConfusion

theorem key_mem_alPut_of_mem {α : Type} (l : List (String × α))
    (k k' : String) (v : α) (h : k' ∈ alKeys l) :
    k' ∈ alKeys (alPut l k v) := by
  by_cases hk : k' = k
  · rw [hk]; exact key_mem_alPut_self l k v
  · rw [key_mem_iff_alGet, alGet_alPut_ne l k k' v hk]
    exact (key_mem_iff_alGet l k').mp h

theorem key_mem_alDrop_of_ne {α : Type} (l : List (String × α))
    (k k' : String) (h : k' ∈ alKeys l) (hne : k' ≠ k) :
    k' ∈ alKeys (alDrop l k) := by
  rw [key_mem_iff_alGet, alGet_alDrop_ne l k k' hne]
  exact (key_mem_iff_alGet l k').mp h

theorem any_key_iff {α : Type} (l : List (String × α)) (k : String) :
    l.any (fun kv => kv.1 == k) = true ↔ k ∈ alKeys l := by
  rw [List.any_eq_true]
  constructor
  · rintro ⟨kv, hkv, hp⟩
    have hk := eq_of_beq hp
    rw [← hk]
    exact List.mem_map_of_mem _ hkv
  · intro h
    obtain ⟨kv, hkv, hf⟩ := List.mem_map.mp h
    exact ⟨kv, hkv, by simp [hf]⟩

theorem alGet_of_mem_nodup {α : Type} (l : List (String × α)) (k : String)
    (v : α) (h : (alKeys l).Nodup) (hm : (k, v) ∈ l) : alGet l k = some v := by
  induction l with
  | nil => cases hm
  | cons hd t ih =>
    simp only [alKeys, List.map_cons, List.nodup_cons] at h
    rcases List.mem_cons.mp hm with h0 | h1
    · rw [← h0]
      unfold alGet
      rw [List.find?_cons, (by simp : (((k, v) : String × α).1 == k) = true)]
      rfl
    · have hne : (hd.1 == k) = false := by
        rw [beq_eq_false_iff_ne]
        intro he
        apply h.1
        rw [he]
        exact List.mem_map_of_mem _ h1
      unfold alGet at ih ⊢
      rw [List.find?_cons, hne]
      exact ih h.2 h1

/-- `send_alert` inserts one fresh unacknowledged, unescalated alert into
`active_alerts` and touches no other alert map. -/
theorem sendAlert_maps (cfg : Config) (m : AlertManager)
    (title message : String) (pri : AlertPriority) (src cat : String)
    (tns : List String) (meta : List (String × JVal)) (aid mid : String)
    (now : Nat) :
    ∃ a : Alert,
      (AlertManager.sendAlert cfg m title message pri src cat tns meta aid
          mid now).1.active_alerts = alPut m.active_alerts aid a ∧
      (AlertManager.sendAlert cfg m title message pri src cat tns meta aid
          mid now).1.acknowledged_alerts = m.acknowledged_alerts ∧
      (AlertManager.sendAlert cfg m title message pri src cat tns meta aid
          mid now).1.escalated_alerts = m.escalated_alerts ∧
      (AlertManager.sendAlert cfg m title message pri src cat tns meta aid
          mid now).1.routing_rules = m.routing_rules ∧
      a.acknowledged = false ∧ a.escalated = false :=
  ⟨_, rfl, rfl, rfl, rfl, rfl, rfl⟩

/-- `_escalate_alert` on an active alert: the alert moves from active to
escalated with its escalation fields set, and exactly one `[ESCALATION] `
message is enqueued at CRITICAL priority on protocol BOTH, tagged with
the alert id and the escalation flag. -/
theorem escalateAlert_spec (cfg : Config) (m : AlertManager)
    (aid mid : String) (now : Nat) (a : Alert)
    (ha : alGet m.active_alerts aid = some a) :
    (m.escalateAlert cfg aid mid now).active_alerts
      = alDrop m.active_alerts aid ∧
    (m.escalateAlert cfg aid mid now).escalated_alerts
      = alPut m.escalated_alerts aid
          { a with escalated := true, escalated_at := some now } ∧
    (m.escalateAlert cfg aid mid now).acknowledged_alerts
      = m.acknowledged_alerts ∧
    (m.escalateAlert cfg aid mid now).message_queue
      = (m.message_queue.enqueue cfg ("[ESCALATION] " ++ a.to_mesh_message)
          none .CRITICAL .BOTH
          [("alert_id", JVal.s aid), ("escalation", JVal.b true)] mid
          now).1 ∧
    (m.escalateAlert cfg aid mid now).routing_rules = m.routing_rules ∧
    (m.escalateAlert cfg aid mid now).failover_active
      = m.failover_active := by
  unfold AlertManager.escalateAlert
  rw [ha]
  exact ⟨rfl, rfl, rfl, rfl, rfl, rfl⟩

/-- `_escalate_alert` on an id no longer active is a no-op. -/
theorem escalateAlert_not_active (cfg : Config) (m : AlertManager)
    (aid mid : String) (now : Nat)
    (ha : alGet m.active_alerts aid = none) :
    m.escalateAlert cfg aid mid now = m := by
  unfold AlertManager.escalateAlert
  rw [ha]

theorem MapsInv_send (cfg : Config) (m : AlertManager)
    (title message : String) (pri : AlertPriority) (src cat : String)
    (tns : List String) (meta : List (String × JVal)) (aid mid : String)
    (now : Nat)
    (hfresh : aid ∉ alKeys m.active_alerts ∧
      aid ∉ alKeys m.acknowledged_alerts ∧
      aid ∉ alKeys m.escalated_alerts)
    (h : MapsInv m) :
    MapsInv (AlertManager.sendAlert cfg m title message pri src cat tns
      meta aid mid now).1 := by
  obtain ⟨a, hact, hack, hesc, -, haf, hef⟩ :=
    sendAlert_maps cfg m title message pri src cat tns meta aid mid now
  obtain ⟨h1, h2, h3, h4, h5, h6, h7, h8⟩ := h
  unfold MapsInv
  rw [hact, hack, hesc]
  refine ⟨nodup_alKeys_alPut _ _ _ h1, h2, h3, ?_, h5, ?_, h7, h8⟩
  · intro x hx
    rcases mem_keys_alPut _ _ _ _ hx with hx1 | hx1
    · exact h4 x hx1
    · rw [hx1]
      exact ⟨hfresh.2.1, hfresh.2.2⟩
  · intro kv hkv
    rcases mem_alPut _ _ _ kv hkv with hin | heq
    · exact h6 kv hin
    · rw [heq]
      exact ⟨haf, hef⟩

theorem MapsInv_ack (m : AlertManager) (aid ackBy : String) (now : Nat)
    (h : MapsInv m) : MapsInv (m.acknowledgeAlert aid ackBy now).2 := by
  obtain ⟨h1, h2, h3, h4, h5, h6, h7, h8⟩ := h
  unfold AlertManager.acknowledgeAlert
  rcases hA : alGet m.active_alerts aid with _ | a
  · rcases hE : alGet m.escalated_alerts aid with _ | a
    · exact ⟨h1, h2, h3, h4, h5, h6, h7, h8⟩
    · have haidE : aid ∈ alKeys m.escalated_alerts :=
        List.mem_map_of_mem _ (alGet_mem _ _ _ hE)
      refine ⟨h1, nodup_alKeys_alPut _ _ _ h2,
        (alKeys_alDrop_sublist _ _).nodup h3, ?_, ?_, h6, ?_, ?_⟩
      · intro x hx
        obtain ⟨hx1, hx2⟩ := h4 x hx
        refine ⟨?_, ?_⟩
        · intro hmem
          rcases mem_keys_alPut _ _ _ _ hmem with hm1 | hm1
          · exact hx1 hm1
          · rw [hm1] at hx
            exact (h4 aid hx).2 haidE
        · intro hmem
          exact hx2 ((alKeys_alDrop_sublist _ _).subset hmem)
      · intro x hx
        rcases mem_keys_alPut _ _ _ _ hx with hm1 | hm1
        · intro hmem
          exact h5 x hm1 ((alKeys_alDrop_sublist _ _).subset hmem)
        · rw [hm1]
          exact key_not_mem_alDrop _ _ h3
      · intro kv hkv
        rcases mem_alPut _ _ _ kv hkv with hin | heq
        · exact h7 kv hin
        · rw [heq]
      · intro kv hkv
        exact h8 kv (List.mem_of_mem_eraseP hkv)
  · have haidA : aid ∈ alKeys m.active_alerts :=
      List.mem_map_of_mem _ (alGet_mem _ _ _ hA)
    refine ⟨(alKeys_alDrop_sublist _ _).nodup h1,
      nodup_alKeys_alPut _ _ _ h2, h3, ?_, ?_, ?_, ?_, h8⟩
    · intro x hx
      have hxA : x ∈ alKeys m.active_alerts :=
        (alKeys_alDrop_sublist _ _).subset hx
      obtain ⟨hx1, hx2⟩ := h4 x hxA
      refine ⟨?_, hx2⟩
      intro hmem
      rcases mem_keys_alPut _ _ _ _ hmem with hm1 | hm1
      · exact hx1 hm1
      · rw [hm1] at hx
        exact key_not_mem_alDrop _ _ h1 hx
    · intro x hx
      rcases mem_keys_alPut _ _ _ _ hx with hm1 | hm1
      · exact h5 x hm1
      · rw [hm1]
        exact (h4 aid haidA).2
    · intro kv hkv
      exact h6 kv (List.mem_of_mem_eraseP hkv)
    · intro kv hkv
      rcases mem_alPut _ _ _ kv hkv with hin | heq
      · exact h7 kv hin
      · rw [heq]

theorem MapsInv_escalate (cfg : Config) (m : AlertManager)
    (aid mid : String) (now : Nat) (h : MapsInv m) :
    MapsInv (m.escalateAlert cfg aid mid now) := by
  rcases hA : alGet m.active_alerts aid with _ | a
  · rw [escalateAlert_not_active cfg m aid mid now hA]
    exact h
  · obtain ⟨hact, hesc, hack, -, -, -⟩ :=
      escalateAlert_spec cfg m aid mid now a hA
    obtain ⟨h1, h2, h3, h4, h5, h6, h7, h8⟩ := h
    have haidA : aid ∈ alKeys m.active_alerts :=
      List.mem_map_of_mem _ (alGet_mem _ _ _ hA)
    unfold MapsInv
    rw [hact, hesc, hack]
    refine ⟨(alKeys_alDrop_sublist _ _).nodup h1, h2,
      nodup_alKeys_alPut _ _ _ h3, ?_, ?_, ?_, h7, ?_⟩
    · intro x hx
      have hxA : x ∈ alKeys m.active_alerts :=
        (alKeys_alDrop_sublist _ _).subset hx
      obtain ⟨hx1, hx2⟩ := h4 x hxA
      refine ⟨hx1, ?_⟩
      intro hmem
      rcases mem_keys_alPut _ _ _ _ hmem with hm1 | hm1
      · exact hx2 hm1
      · rw [hm1] at hx
        exact key_not_mem_alDrop _ _ h1 hx
    · intro x hx
      intro hmem
      rcases mem_keys_alPut _ _ _ _ hmem with hm1 | hm1
      · exact h5 x hx hm1
      · rw [hm1] at hx
        exact (h4 aid haidA).1 hx
    · intro kv hkv
      exact h6 kv (List.mem_of_mem_eraseP hkv)
    · intro kv hkv
      rcases mem_alPut _ _ _ kv hkv with hin | heq
      · exact h8 kv hin
      · rw [heq]

theorem toEscalate_sublist (cfg : Config) (m : AlertManager) (now : Nat) :
    (m.toEscalate cfg now).Sublist (alKeys m.active_alerts) := by
  unfold AlertManager.toEscalate alKeys
  exact (List.filter_sublist _).map Prod.fst

theorem toEscalate_nodup (cfg : Config) (m : AlertManager) (now : Nat)
    (h : (alKeys m.active_alerts).Nodup) : (m.toEscalate cfg now).Nodup :=
  (toEscalate_sublist cfg m now).nodup h

theorem toEscalate_subset_keys (cfg : Config) (m : AlertManager) (now : Nat) :
    ∀ aid ∈ m.toEscalate cfg now, aid ∈ alKeys m.active_alerts :=
  fun _ h => (toEscalate_sublist cfg m now).subset h

/-- An active alert is collected for escalation exactly when its rule
timeout is positive, its age has reached the timeout, and it is not yet
flagged escalated. -/
theorem mem_toEscalate_iff (cfg : Config) (m : AlertManager) (now : Nat)
    (aid : String) (a : Alert) (hn : (alKeys m.active_alerts).Nodup)
    (ha : alGet m.active_alerts aid = some a) :
    aid ∈ m.toEscalate cfg now ↔
      (0 < m.ruleTimeout cfg a.priority ∧
       a.created_at + m.ruleTimeout cfg a.priority ≤ now ∧
       a.escalated = false) := by
  unfold AlertManager.toEscalate
  constructor
  · intro h
    obtain ⟨kv, hkv, hfst⟩ := List.mem_map.mp h
    have hmem := List.mem_of_mem_filter hkv
    have hpred := List.of_mem_filter hkv
    have hget : alGet m.active_alerts kv.1 = some kv.2 := by
      apply alGet_of_mem_nodup _ _ _ hn
      rw [Prod.mk.eta]
      exact hmem
    rw [hfst, ha] at hget
    have hkva : kv.2 = a := (Option.some.inj hget).symm
    simp only [Bool.and_eq_true, decide_eq_true_eq,
      Bool.not_eq_true'] at hpred
    rw [hkva] at hpred
    exact ⟨hpred.1.1, hpred.1.2, hpred.2⟩
  · rintro ⟨hp1, hp2, hp3⟩
    have hmem : (aid, a) ∈ m.active_alerts := alGet_mem _ _ _ ha
    have hfil : (aid, a) ∈ m.active_alerts.filter (fun kv =>
        decide (0 < m.ruleTimeout cfg kv.2.priority) &&
        decide (kv.2.created_at + m.ruleTimeout cfg kv.2.priority ≤ now) &&
        !kv.2.escalated) := by
      apply List.mem_filter.mpr
      refine ⟨hmem, ?_⟩
      simp only [Bool.and_eq_true, decide_eq_true_eq, Bool.not_eq_true']
      exact ⟨⟨hp1, hp2⟩, hp3⟩
    exact List.mem_map_of_mem _ hfil

/-- The escalation fold of `_check_escalations`. -/
def escFold (cfg : Config) (now : Nat) (mids : String → String)
    (l : List String) (m : AlertManager) : AlertManager :=
  l.foldl (fun acc aid => acc.escalateAlert cfg aid (mids aid) now) m

theorem checkEscalations_eq (cfg : Config) (m : AlertManager) (now : Nat)
    (mids : String → String) :
    m.checkEscalations cfg now mids
      = escFold cfg now mids (m.toEscalate cfg now) m := rfl

/-- The effect of escalating a list of distinct active alert ids in
order: each listed alert moves from active to escalated with its
escalation fields stamped; every other id's active and escalated entries
are untouched; the acknowledged map is untouched; the escalated map only
grows. -/
theorem escalate_fold (cfg : Config) (now : Nat) (mids : String → String) :
    ∀ (l : List String) (m : AlertManager),
      MapsInv m →
      (∀ aid ∈ l, aid ∈ alKeys m.active_alerts) →
      l.Nodup →
      MapsInv (escFold cfg now mids l m) ∧
      (∀ aid a, aid ∈ l → alGet m.active_alerts aid = some a →
        alGet (escFold cfg now mids l m).active_alerts aid = none ∧
        alGet (escFold cfg now mids l m).escalated_alerts aid
          = some { a with escalated := true, escalated_at := some now }) ∧
      (∀ aid, aid ∉ l →
        alGet (escFold cfg now mids l m).active_alerts aid
          = alGet m.active_alerts aid ∧
        alGet (escFold cfg now mids l m).escalated_alerts aid
          = alGet m.escalated_alerts aid) ∧
      (escFold cfg now mids l m).acknowledged_alerts
        = m.acknowledged_alerts ∧
      (∀ aid ∈ alKeys m.escalated_alerts,
        aid ∈ alKeys (escFold cfg now mids l m).escalated_alerts) := by
  intro l
  induction l with
  | nil =>
    intro m hm _ _
    exact ⟨hm, fun aid a h => absurd h (List.not_mem_nil aid),
      fun aid _ => ⟨rfl, rfl⟩, rfl, fun aid h => h⟩
  | cons aid0 t ih =>
    intro m hm hact hnd
    have h0k : aid0 ∈ alKeys m.active_alerts :=
      hact aid0 (List.mem_cons_self _ _)
    have h0ne : alGet m.active_alerts aid0 ≠ none :=
      alGet_isSome_of_key_mem _ _ h0k
    rcases hA : alGet m.active_alerts aid0 with _ | a0
    · exact absurd hA h0ne
    obtain ⟨e1, e2, e3, -, -, -⟩ :=
      escalateAlert_spec cfg m aid0 (mids aid0) now a0 hA
    have hm1Inv : MapsInv (m.escalateAlert cfg aid0 (mids aid0) now) :=
      MapsInv_escalate cfg m aid0 (mids aid0) now hm
    have hndt : t.Nodup := (List.nodup_cons.mp hnd).2
    have h0nt : aid0 ∉ t := (List.nodup_cons.mp hnd).1
    have hactt : ∀ aid ∈ t,
        aid ∈ alKeys (m.escalateAlert cfg aid0 (mids aid0) now).active_alerts := by
      intro aid h
      have hne : aid ≠ aid0 := fun he => h0nt (he ▸ h)
      rw [e1]
      exact key_mem_alDrop_of_ne _ _ _ (hact aid (List.mem_cons_of_mem _ h))
        hne
    obtain ⟨f1, f2, f3, f4, f5⟩ :=
      ih (m.escalateAlert cfg aid0 (mids aid0) now) hm1Inv hactt hndt
    have hfold : escFold cfg now mids (aid0 :: t) m
        = escFold cfg now mids t (m.escalateAlert cfg aid0 (mids aid0) now) :=
      rfl
    refine ⟨by rw [hfold]; exact f1, ?_, ?_, ?_, ?_⟩
    · intro aid a hmem ha
      rcases List.mem_cons.mp hmem with he | ht
      · rw [he] at ha ⊢
        have haa : a = a0 := by
          rw [hA] at ha
          exact (Option.some.inj ha).symm
        rw [hfold]
        constructor
        · rw [(f3 aid0 h0nt).1, e1]
          exact alGet_alDrop_self _ _ hm.1
        · rw [(f3 aid0 h0nt).2, e2, haa]
          exact alGet_alPut_self _ _ _
      · have hne : aid ≠ aid0 := fun he => h0nt (he ▸ ht)
        have ha1 : alGet (m.escalateAlert cfg aid0
            (mids aid0) now).active_alerts aid = some a := by
          rw [e1, alGet_alDrop_ne _ _ _ hne]
          exact ha
        rw [hfold]
        exact f2 aid a ht ha1
    · intro aid hnmem
      have hne : aid ≠ aid0 := fun he => hnmem (he ▸ List.mem_cons_self _ _)
      have hnt : aid ∉ t := fun h => hnmem (List.mem_cons_of_mem _ h)
      rw [hfold]
      obtain ⟨g1, g2⟩ := f3 aid hnt
      constructor
      · rw [g1, e1, alGet_alDrop_ne _ _ _ hne]
      · rw [g2, e2, alGet_alPut_ne _ _ _ _ hne]
    · rw [hfold, f4, e3]
    · intro aid h
      rw [hfold]
      apply f5
      rw [e2]
      exact key_mem_alPut_of_mem _ _ _ _ h

/-- `acknowledge_alert` does one of three things: nothing (unknown id),
move the alert from active to acknowledged, or move it from escalated to
acknowledged. -/
theorem ackAlert_cases (m : AlertManager) (aid ackBy : String) (now : Nat) :
    (alGet m.active_alerts aid = none ∧ alGet m.escalated_alerts aid = none ∧
      (m.acknowledgeAlert aid ackBy now).2 = m) ∨
    (∃ a, alGet m.active_alerts aid = some a ∧
      (m.acknowledgeAlert aid ackBy now).2.active_alerts
        = alDrop m.active_alerts aid ∧
      (m.acknowledgeAlert aid ackBy now).2.acknowledged_alerts
        = alPut m.acknowledged_alerts aid
            { a with acknowledged := true, acknowledged_by := some ackBy,
                     acknowledged_at := some now } ∧
      (m.acknowledgeAlert aid ackBy now).2.escalated_alerts
        = m.escalated_alerts) ∨
    (∃ a, alGet m.active_alerts aid = none ∧
      alGet m.escalated_alerts aid = some a ∧
      (m.acknowledgeAlert aid ackBy now).2.active_alerts
        = m.active_alerts ∧
      (m.acknowledgeAlert aid ackBy now).2.acknowledged_alerts
        = alPut m.acknowledged_alerts aid
            { a with acknowledged := true, acknowledged_by := some ackBy,
                     acknowledged_at := some now } ∧
      (m.acknowledgeAlert aid ackBy now).2.escalated_alerts
        = alDrop m.escalated_alerts aid) := by
  unfold AlertManager.acknowledgeAlert
  rcases hA : alGet m.active_alerts aid with _ | a
  · rcases hE : alGet m.escalated_alerts aid with _ | a
    · exact Or.inl ⟨rfl, rfl, rfl⟩
    · exact Or.inr (Or.inr ⟨a, rfl, rfl, rfl, rfl, rfl⟩)
  · exact Or.inr (Or.inl ⟨a, rfl, rfl, rfl, rfl⟩)

/-- Every step preserves the combined invariant. -/
theorem MInv_step (cfg : Config) (p q : MState) (h : MStep cfg p q)
    (hp : MInv p) : MInv q := by
  obtain ⟨hm, htr⟩ := hp
  cases h with
  | send m tr title message pri src cat tns meta aid mid now hfresh =>
    obtain ⟨a, hact, hack, hesc, -, -, -⟩ :=
      sendAlert_maps cfg m title message pri src cat tns meta aid mid now
    refine ⟨MapsInv_send cfg m title message pri src cat tns meta aid mid
      now hfresh hm, htr.1, ?_⟩
    intro x hx
    rw [hesc, hack]
    exact htr.2 x hx
  | ack m tr aid ackBy now =>
    refine ⟨MapsInv_ack m aid ackBy now hm, htr.1, ?_⟩
    intro x hx
    rcases ackAlert_cases m aid ackBy now with ⟨-, -, h0⟩ |
        ⟨a, hA, ha1, ha2, ha3⟩ | ⟨a, hA, hE, he1, he2, he3⟩
    · rw [h0]
      exact htr.2 x hx
    · rw [ha2, ha3]
      rcases htr.2 x hx with hxe | hxa
      · exact Or.inl hxe
      · exact Or.inr (key_mem_alPut_of_mem _ _ _ _ hxa)
    · rw [he2, he3]
      rcases htr.2 x hx with hxe | hxa
      · by_cases hxaid : x = aid
        · right
          rw [hxaid]
          exact key_mem_alPut_self _ _ _
        · exact Or.inl (key_mem_alDrop_of_ne _ _ _ hxe hxaid)
      · exact Or.inr (key_mem_alPut_of_mem _ _ _ _ hxa)
  | check m tr now mids =>
    have hsub := toEscalate_subset_keys cfg m now
    have hnd := toEscalate_nodup cfg m now hm.1
    obtain ⟨f1, f2, f3, f4, f5⟩ := escalate_fold cfg now mids
      (m.toEscalate cfg now) m hm hsub hnd
    rw [checkEscalations_eq]
    refine ⟨f1, ?_, ?_⟩
    · apply List.nodup_append.mpr
      refine ⟨htr.1, hnd, ?_⟩
      intro x hxtr hxesc
      have hxkeys := hsub x hxesc
      rcases htr.2 x hxtr with hxe | hxa
      · exact (hm.2.2.2.1 x hxkeys).2 hxe
      · exact (hm.2.2.2.1 x hxkeys).1 hxa
    · intro x hx
      rcases List.mem_append.mp hx with hxtr | hxnew
      · rcases htr.2 x hxtr with hxe | hxa
        · exact Or.inl (f5 x hxe)
        · rw [f4]
          exact Or.inr hxa
      · left
        have hxkeys := hsub x hxnew
        rcases hget : alGet m.active_alerts x with _ | a
        · exact absurd hget (alGet_isSome_of_key_mem _ _ hxkeys)
        · have := (f2 x a hxnew hget).2
          rw [key_mem_iff_alGet, this]
          exact Option.noConfusion
  | failover m tr b => exact ⟨hm, htr⟩
  | worker m tr handler now => exact ⟨hm, htr⟩
  | retryOne m tr mid => exact ⟨hm, htr⟩
  | retryAll m tr => exact ⟨hm, htr⟩
  | updateRule m tr prio pr et ra => exact ⟨hm, htr⟩

theorem MInv_init : MInv (AlertManager.init, []) := by
  refine ⟨⟨List.nodup_nil, List.nodup_nil, List.nodup_nil, ?_, ?_, ?_, ?_,
    ?_⟩, List.nodup_nil, ?_⟩ <;>
    intro x hx <;> cases hx

/-- Every reachable manager state satisfies the invariant. -/
theorem MInv_reachable (cfg : Config) (p : MState)
    (h : MReachable cfg p) : MInv p := by
  induction h with
  | refl => exact MInv_init
  | tail hab hbc ih => exact MInv_step cfg _ _ hbc ih

/-- C5: in every reachable manager state, an active alert whose rule
timeout `T` is positive and whose age has reached `T` is collected by
the escalation tick and escalated: it leaves `active`, appears in
`escalated` with its escalation fields stamped, and (by
`escalateAlert_spec`, restated here as the enqueue equation) exactly one
`"[ESCALATION] "`-prefixed message is enqueued at CRITICAL priority on
protocol BOTH; an alert whose rule timeout is 0 is never collected and
survives the tick unchanged; the escalation-event history of a reachable
state never repeats an alert id — escalation fires at most once per
alert. -/
theorem escalation_once (cfg : Config) (p : MState)
    (h : MReachable cfg p) :
    (∀ aid a now mids, alGet p.1.active_alerts aid = some a →
      0 < p.1.ruleTimeout cfg a.priority →
      a.created_at + p.1.ruleTimeout cfg a.priority ≤ now →
      aid ∈ p.1.toEscalate cfg now ∧
      alGet (p.1.checkEscalations cfg now mids).active_alerts aid = none ∧
      alGet (p.1.checkEscalations cfg now mids).escalated_alerts aid
        = some { a with escalated := true, escalated_at := some now }) ∧
    (∀ aid a now mids, alGet p.1.active_alerts aid = some a →
      p.1.ruleTimeout cfg a.priority = 0 →
      aid ∉ p.1.toEscalate cfg now ∧
      alGet (p.1.checkEscalations cfg now mids).active_alerts aid
        = some a) ∧
    (∀ now, (p.1.toEscalate cfg now).Nodup) ∧
    (∀ aid a mid now, alGet p.1.active_alerts aid = some a →
      (p.1.escalateAlert cfg aid mid now).message_queue
        = (p.1.message_queue.enqueue cfg
            ("[ESCALATION] " ++ a.to_mesh_message) none .CRITICAL .BOTH
            [("alert_id", JVal.s aid), ("escalation", JVal.b true)]
            mid now).1) ∧
    p.2.Nodup := by
  obtain ⟨hm, htr⟩ := MInv_reachable cfg p h
  refine ⟨?_, ?_, fun now => toEscalate_nodup cfg p.1 now hm.1, ?_, htr.1⟩
  · intro aid a now mids ha hT hdue
    have hflags := hm.2.2.2.2.2.1 (aid, a) (alGet_mem _ _ _ ha)
    have hmem : aid ∈ p.1.toEscalate cfg now :=
      (mem_toEscalate_iff cfg p.1 now aid a hm.1 ha).mpr
        ⟨hT, hdue, hflags.2⟩
    obtain ⟨f1, f2, f3, f4, f5⟩ := escalate_fold cfg now mids
      (p.1.toEscalate cfg now) p.1 hm (toEscalate_subset_keys cfg p.1 now)
      (toEscalate_nodup cfg p.1 now hm.1)
    have heff := f2 aid a hmem ha
    rw [checkEscalations_eq]
    exact ⟨hmem, heff.1, heff.2⟩
  · intro aid a now mids ha hT0
    have hnmem : aid ∉ p.1.toEscalate cfg now := by
      intro hmem
      have := ((mem_toEscalate_iff cfg p.1 now aid a hm.1 ha).mp hmem).1
      rw [hT0] at this
      exact Nat.lt_irrefl 0 this
    obtain ⟨f1, f2, f3, f4, f5⟩ := escalate_fold cfg now mids
      (p.1.toEscalate cfg now) p.1 hm (toEscalate_subset_keys cfg p.1 now)
      (toEscalate_nodup cfg p.1 now hm.1)
    refine ⟨hnmem, ?_⟩
    rw [checkEscalations_eq, (f3 aid hnmem).1]
    exact ha
  · intro aid a mid now ha
    exact (escalateAlert_spec cfg p.1 aid mid now a ha).2.2.2.1

/-- C6: in every reachable manager state an accepted alert is in exactly
one of active / acknowledged / escalated (the three maps are pairwise
disjoint); an active alert — the only source of an escalation
transition — is never acknowledged; and acknowledgement is terminal:
whatever step follows, an acknowledged alert keeps its acknowledged
entry, never re-enters active or escalated, and no escalation event ever
fires for it. -/
theorem alert_lifecycle (cfg : Config) (p : MState)
    (h : MReachable cfg p) :
    (∀ aid, (alGet p.1.active_alerts aid ≠ none →
        alGet p.1.acknowledged_alerts aid = none ∧
        alGet p.1.escalated_alerts aid = none) ∧
      (alGet p.1.acknowledged_alerts aid ≠ none →
        alGet p.1.escalated_alerts aid = none)) ∧
    (∀ aid a, alGet p.1.active_alerts aid = some a →
      a.acknowledged = false ∧ a.escalated = false) ∧
    (∀ q, MStep cfg p q → ∀ aid,
      alGet p.1.acknowledged_alerts aid ≠ none →
      alGet q.1.acknowledged_alerts aid
        = alGet p.1.acknowledged_alerts aid ∧
      alGet q.1.active_alerts aid = none ∧
      alGet q.1.escalated_alerts aid = none ∧
      q.2.count aid = p.2.count aid) := by
  obtain ⟨hm, htr⟩ := MInv_reachable cfg p h
  obtain ⟨h1, h2, h3, h4, h5, h6, h7, h8⟩ := hm
  refine ⟨?_, ?_, ?_⟩
  · intro aid
    constructor
    · intro hact
      have haidA := (key_mem_iff_alGet _ _).mpr hact
      exact ⟨alGet_none_of_key_not_mem _ _ (h4 aid haidA).1,
        alGet_none_of_key_not_mem _ _ (h4 aid haidA).2⟩
    · intro hack
      have haidK := (key_mem_iff_alGet _ _).mpr hack
      exact alGet_none_of_key_not_mem _ _ (h5 aid haidK)
  · intro aid a ha
    exact h6 (aid, a) (alGet_mem _ _ _ ha)
  · intro q hstep aid hackx
    have haidK := (key_mem_iff_alGet _ _).mpr hackx
    have hnact : aid ∉ alKeys p.1.active_alerts :=
      fun hA => (h4 aid hA).1 haidK
    have hnesc : aid ∉ alKeys p.1.escalated_alerts := h5 aid haidK
    have hactnone : alGet p.1.active_alerts aid = none :=
      alGet_none_of_key_not_mem _ _ hnact
    have hescnone : alGet p.1.escalated_alerts aid = none :=
      alGet_none_of_key_not_mem _ _ hnesc
    cases hstep with
    | send m tr title message pri src cat tns meta aid2 mid now hfresh =>
      obtain ⟨a, hact, hack, hesc, -, -, -⟩ :=
        sendAlert_maps cfg m title message pri src cat tns meta aid2 mid
          now
      have hne : aid ≠ aid2 := fun he => hfresh.2.1 (he ▸ haidK)
      refine ⟨by rw [hack], ?_, by rw [hesc]; exact hescnone, rfl⟩
      rw [hact, alGet_alPut_ne _ _ _ _ hne]
      exact hactnone
    | ack m tr aid2 ackBy now =>
      rcases ackAlert_cases m aid2 ackBy now with ⟨-, -, h0⟩ |
          ⟨a, hA2, ha1, ha2, ha3⟩ | ⟨a, hA2, hE2, he1, he2, he3⟩
      · rw [h0]
        exact ⟨rfl, hactnone, hescnone, rfl⟩
      · have haid2A : aid2 ∈ alKeys m.active_alerts :=
          List.mem_map_of_mem _ (alGet_mem _ _ _ hA2)
        have hne : aid ≠ aid2 := fun he => hnact (he ▸ haid2A)
        refine ⟨?_, ?_, by rw [ha3]; exact hescnone, rfl⟩
        · rw [ha2, alGet_alPut_ne _ _ _ _ hne]
        · rw [ha1, alGet_alDrop_ne _ _ _ hne]
          exact hactnone
      · have haid2E : aid2 ∈ alKeys m.escalated_alerts :=
          List.mem_map_of_mem _ (alGet_mem _ _ _ hE2)
        have hne : aid ≠ aid2 := fun he => hnesc (he ▸ haid2E)
        refine ⟨?_, by rw [he1]; exact hactnone, ?_, rfl⟩
        · rw [he2, alGet_alPut_ne _ _ _ _ hne]
        · rw [he3, alGet_alDrop_ne _ _ _ hne]
          exact hescnone
    | check m tr now mids =>
      have hsub := toEscalate_subset_keys cfg m now
      obtain ⟨f1, f2, f3, f4, f5⟩ := escalate_fold cfg now mids
        (m.toEscalate cfg now) m ⟨h1, h2, h3, h4, h5, h6, h7, h8⟩ hsub
        (toEscalate_nodup cfg m now h1)
      have hnmem : aid ∉ m.toEscalate cfg now :=
        fun hmem => hnact (hsub aid hmem)
      refine ⟨?_, ?_, ?_, ?_⟩
      · rw [checkEscalations_eq, f4]
      · rw [checkEscalations_eq, (f3 aid hnmem).1]
        exact hactnone
      · rw [checkEscalations_eq, (f3 aid hnmem).2]
        exact hescnone
      · show (tr ++ m.toEscalate cfg now).count aid = tr.count aid
        rw [List.count_append, List.count_eq_zero.mpr hnmem]
        rfl
    | failover m tr b => exact ⟨rfl, hactnone, hescnone, rfl⟩
    | worker m tr handler now => exact ⟨rfl, hactnone, hescnone, rfl⟩
    | retryOne m tr mid => exact ⟨rfl, hactnone, hescnone, rfl⟩
    | retryAll m tr => exact ⟨rfl, hactnone, hescnone, rfl⟩
    | updateRule m tr prio pr et ra =>
      exact ⟨rfl, hactnone, hescnone, rfl⟩

/-- A concrete reachable state: one CRITICAL alert sent from a fresh
manager (CRITICAL's default rule: protocol BOTH, escalation timeout
60 s). -/
def mgrOne : AlertManager :=
  (AlertManager.sendAlert Config.default AlertManager.init "t" "m"
    .CRITICAL "s" "c" [] [] "a1" "q1" 0).1

theorem mgrOne_reachable : MReachable Config.default (mgrOne, []) :=
  Relation.ReflTransGen.single
    (MStep.send AlertManager.init [] "t" "m" .CRITICAL "s" "c" [] [] "a1"
      "q1" 0 ⟨by decide, by decide, by decide⟩)

/-- Witness for `escalation_once`: the CRITICAL alert of `mgrOne`,
unacknowledged at t = 60, escalates in one tick: it leaves `active` and
lands in `escalated` with `escalated = true`, `escalated_at = 60`. -/
theorem escalation_once_witness :
    alGet (mgrOne.checkEscalations Config.default 60
        (fun _ => "e1")).active_alerts "a1" = none ∧
    (alGet (mgrOne.checkEscalations Config.default 60
        (fun _ => "e1")).escalated_alerts "a1").map
      (fun a => (a.escalated, a.escalated_at)) = some (true, some 60) := by
  have h := escalation_once Config.default (mgrOne, []) mgrOne_reachable
  have h1 := h.1 "a1"
    { id := "a1", title := "t", message := "m", priority := .CRITICAL
      source := "s", category := "c", created_at := 0
      acknowledged := false, acknowledged_by := none
      acknowledged_at := none, escalated := false, escalated_at := none
      routing_protocol := .BOTH, target_nodes := [], metadata := [] }
    60 (fun _ => "e1") (by decide) (by decide) (by decide)
  refine ⟨h1.2.1, ?_⟩
  rw [h1.2.2]
  rfl

/-- Witness for `alert_lifecycle`: in `mgrOne` the fresh active alert is
in neither the acknowledged nor the escalated map. -/
theorem alert_lifecycle_witness :
    alGet mgrOne.acknowledged_alerts "a1" = none ∧
    alGet mgrOne.escalated_alerts "a1" = none := by
  have h := alert_lifecycle Config.default (mgrOne, []) mgrOne_reachable
  exact (h.1 "a1").1 (by decide)

end MeshBridge
